import Mathlib

/-!
Verification of the solana-messenger TypeScript SDK against its
natural-language specification.

The definitions below are a shallow embedding of the SDK source
(`src/sdk/src/crypto.ts`, `src/sdk/src/instructions.ts`, the events
parser, the registry lookup and the messenger class).  Byte arrays
(`Uint8Array`) are modelled as `List Nat` whose entries are byte values;
JavaScript 32-bit signed arithmetic is made explicit with `% 2 ^ 32` and a
signed reinterpretation, and fallible operations return `Option` or
`Except`.  External primitives (tweetnacl `box.open`, the `ed2curve`
conversions and the per-chunk transaction submission pipeline) are taken
as explicit oracle parameters, so the surrounding control flow of the SDK
is verified for every behaviour of those primitives.
-/

namespace Messenger

/-- Reinterpret a JavaScript 32-bit pattern as a signed integer
(`ToInt32` of ECMA-262, applied to a value already reduced mod `2 ^ 32`). -/
def toInt32 (v : Nat) : Int :=
  let w := v % 4294967296
  if w < 2147483648 then (w : Int) else (w : Int) - 4294967296

/-- Model of `buf.set(src, off)` on a `Uint8Array` viewed as a list:
overwrite `src.length` entries starting at `off`. -/
def bufSet (buf src : List Nat) (off : Nat) : List Nat :=
  buf.take off ++ src ++ buf.drop (off + src.length)

/-- Model of `Uint8Array.prototype.slice`/`subarray` with non-negative,
clamped indices: the bytes in positions `[a, b)`. -/
def jsSlice (d : List Nat) (a b : Nat) : List Nat :=
  (d.take b).drop a

theorem bufSet_concat (a b src : List Nat) :
    bufSet (a ++ b) src a.length = a ++ src ++ b.drop src.length := by
  unfold bufSet
  rw [List.take_left, List.drop_append]

theorem bufSet_zero (l src : List Nat) :
    bufSet l src 0 = src ++ l.drop src.length := by
  simp [bufSet]

/-! ## Frame codec (`src/sdk/src/crypto.ts`)

`encodeMessage` splits a UTF-8 plaintext into header-plus-payload frames,
`decodeMessage` reads a frame back.  The 8-byte `message_id`, drawn by
`nacl.randomBytes(8)` in the source, is passed in as a parameter here. -/

def HEADER_SIZE : Nat := 13

def MAX_PAYLOAD_SIZE : Nat := 661

def FLAGS_STANDALONE : Nat := 0

def FLAGS_CHUNKED : Nat := 1

/-- UTF-8 encoding of one scalar value (`TextEncoder`). -/
def utf8EncodeChar (c : Char) : List Nat :=
  let n := c.toNat
  if n < 128 then [n]
  else if n < 2048 then [192 + n / 64, 128 + n % 64]
  else if n < 65536 then [224 + n / 4096, 128 + n / 64 % 64, 128 + n % 64]
  else [240 + n / 262144, 128 + n / 4096 % 64, 128 + n / 64 % 64, 128 + n % 64]

/-- UTF-8 encoding of a string (`new TextEncoder().encode(text)`). -/
def utf8Encode (s : String) : List Nat :=
  s.data.flatMap utf8EncodeChar

/-- `writeU16BE(buf, value, offset)` from the source: big-endian 16-bit
write; `(value >> 8) & 0xff` is `value / 256 % 256` for the in-range
values the encoder produces. -/
def writeU16BE (buf : List Nat) (value off : Nat) : List Nat :=
  bufSet buf [value / 256 % 256, value % 256] off

/-- `readU16BE(buf, offset)`: `(buf[offset] << 8) | buf[offset + 1]`,
which on byte values is `256 * b₀ + b₁`; indices past the end read 0. -/
def readU16BE (d : List Nat) (off : Nat) : Nat :=
  256 * d.getD off 0 + d.getD (off + 1) 0

/-- `encodeMessage(text)` with the random 8-byte message id made explicit. -/
def encodeMessage (messageId : List Nat) (text : String) : List (List Nat) :=
  let payload := utf8Encode text
  if payload.length ≤ MAX_PAYLOAD_SIZE then
    let frame := List.replicate (HEADER_SIZE + payload.length) 0
    let frame := bufSet frame [FLAGS_STANDALONE] 0
    let frame := bufSet frame messageId 1
    let frame := writeU16BE frame 0 9
    let frame := writeU16BE frame 1 11
    let frame := bufSet frame payload HEADER_SIZE
    [frame]
  else
    let totalChunks := (payload.length + (MAX_PAYLOAD_SIZE - 1)) / MAX_PAYLOAD_SIZE
    (List.range totalChunks).map (fun i =>
      let chunkPayload := (payload.drop (i * MAX_PAYLOAD_SIZE)).take MAX_PAYLOAD_SIZE
      let frame := List.replicate (HEADER_SIZE + chunkPayload.length) 0
      let frame := bufSet frame [FLAGS_CHUNKED] 0
      let frame := bufSet frame messageId 1
      let frame := writeU16BE frame i 9
      let frame := writeU16BE frame totalChunks 11
      let frame := bufSet frame chunkPayload HEADER_SIZE
      frame)

/-- Decoded frame header and payload (`DecodedMessage` of `types.ts`). -/
structure DecodedMessage where
  flags : Nat
  messageId : List Nat
  chunkIndex : Nat
  totalChunks : Nat
  payload : List Nat
deriving DecidableEq, Repr

/-- Error text thrown by `decodeMessage` on a short input. -/
def msgTooShortAt (n : Nat) : String :=
  "Message too short: " ++ toString n ++ " bytes, need at least 13"

/-- `decodeMessage(data)`: fails below 13 bytes, otherwise reads the header
fields and returns the remainder as payload. -/
def decodeMessage (data : List Nat) : Except String DecodedMessage :=
  if data.length < HEADER_SIZE then .error (msgTooShortAt data.length)
  else .ok
    { flags := data.getD 0 0
      messageId := (data.take 9).drop 1
      chunkIndex := readU16BE data 9
      totalChunks := readU16BE data 11
      payload := data.drop HEADER_SIZE }

/-! ### Frame normal form -/

theorem bufSet_exact {src seg : List Nat} (a rest : List Nat)
    (h : seg.length = src.length) :
    bufSet (a ++ (seg ++ rest)) src a.length = a ++ (src ++ rest) := by
  rw [bufSet_concat, List.drop_left' h, List.append_assoc]

/-- The five buffer writes of `encodeMessage` produce the concatenation
`flags ∥ message_id ∥ chunk_index(BE) ∥ total_chunks(BE) ∥ payload`. -/
theorem encode_frame_eq (mid payload : List Nat) (flags ci tc : Nat)
    (h : mid.length = 8) :
    bufSet (writeU16BE (writeU16BE
        (bufSet (bufSet (List.replicate (HEADER_SIZE + payload.length) 0)
          [flags] 0) mid 1) ci 9) tc 11) payload HEADER_SIZE
    = flags :: (mid ++ [ci / 256 % 256, ci % 256, tc / 256 % 256, tc % 256]
        ++ payload) := by
  have hsplit : List.replicate (HEADER_SIZE + payload.length) (0 : Nat)
      = [0] ++ (List.replicate 8 0 ++ ([0, 0] ++ ([0, 0]
          ++ (List.replicate payload.length 0 ++ [])))) := by
    have h13 : HEADER_SIZE + payload.length
        = 1 + (8 + (2 + (2 + payload.length))) := by
      simp [HEADER_SIZE]; omega
    rw [h13, List.replicate_add, List.replicate_add, List.replicate_add,
      List.replicate_add]
    simp [List.replicate_succ]
  have h0 : bufSet (List.replicate (HEADER_SIZE + payload.length) 0)
      [flags] 0 = [flags] ++ (List.replicate 8 0 ++ ([0, 0] ++ ([0, 0]
          ++ (List.replicate payload.length 0 ++ [])))) := by
    rw [hsplit]
    have := @bufSet_exact [flags] [0]
      ([] : List Nat)
      ((List.replicate 8 0 ++ ([0, 0] ++ ([0, 0]
          ++ (List.replicate payload.length 0 ++ []))))) rfl
    simpa using this
  have h1 : bufSet ([flags] ++ (List.replicate 8 0 ++ ([0, 0] ++ ([0, 0]
          ++ (List.replicate payload.length 0 ++ []))))) mid 1
      = [flags] ++ (mid ++ ([0, 0] ++ ([0, 0]
          ++ (List.replicate payload.length 0 ++ [])))) := by
    have := @bufSet_exact mid (List.replicate 8 0)
      [flags] ([0, 0] ++ ([0, 0] ++ (List.replicate payload.length 0 ++ [])))
      (by simp [h])
    simpa using this
  have h2 : writeU16BE ([flags] ++ (mid ++ ([0, 0] ++ ([0, 0]
          ++ (List.replicate payload.length 0 ++ []))))) ci 9
      = ([flags] ++ mid) ++ ([ci / 256 % 256, ci % 256] ++ ([0, 0]
          ++ (List.replicate payload.length 0 ++ []))) := by
    have := @bufSet_exact [ci / 256 % 256, ci % 256] [0, 0]
      ([flags] ++ mid)
      ([0, 0] ++ (List.replicate payload.length 0 ++ [])) rfl
    rw [writeU16BE]
    have hlen : ([flags] ++ mid).length = 9 := by simp [h]
    rw [← List.append_assoc] at *
    rw [hlen] at this
    simpa using this
  have h3 : writeU16BE (([flags] ++ mid) ++ ([ci / 256 % 256, ci % 256]
          ++ ([0, 0] ++ (List.replicate payload.length 0 ++ [])))) tc 11
      = (([flags] ++ mid) ++ [ci / 256 % 256, ci % 256])
          ++ ([tc / 256 % 256, tc % 256]
          ++ (List.replicate payload.length 0 ++ [])) := by
    have := @bufSet_exact [tc / 256 % 256, tc % 256] [0, 0]
      (([flags] ++ mid) ++ [ci / 256 % 256, ci % 256])
      (List.replicate payload.length 0 ++ []) rfl
    rw [writeU16BE]
    have hlen : (([flags] ++ mid) ++ [ci / 256 % 256, ci % 256]).length = 11 := by
      simp [h]
    rw [hlen] at this
    rw [List.append_assoc] at this
    rw [← this]
  have h4 : bufSet ((([flags] ++ mid) ++ [ci / 256 % 256, ci % 256])
          ++ ([tc / 256 % 256, tc % 256]
          ++ (List.replicate payload.length 0 ++ []))) payload HEADER_SIZE
      = ((([flags] ++ mid) ++ [ci / 256 % 256, ci % 256])
          ++ [tc / 256 % 256, tc % 256]) ++ (payload ++ []) := by
    have := @bufSet_exact payload
      (List.replicate payload.length 0)
      ((([flags] ++ mid) ++ [ci / 256 % 256, ci % 256])
        ++ [tc / 256 % 256, tc % 256])
      ([] : List Nat) (by simp)
    have hlen : (((([flags] ++ mid) ++ [ci / 256 % 256, ci % 256])
        ++ [tc / 256 % 256, tc % 256])).length = HEADER_SIZE := by
      simp [h, HEADER_SIZE]
    rw [hlen] at this
    rw [← this]
    congr 1
    simp [List.append_assoc]
  rw [h0, h1, h2, h3, h4]
  simp [List.append_assoc]

/-- Reading back a 16-bit big-endian value below `2 ^ 16`. -/
theorem u16_roundtrip (v : Nat) (hv : v < 65536) :
    256 * (v / 256 % 256) + v % 256 = v := by
  omega

/-- `decodeMessage` on a frame in normal form recovers the header fields
and the payload. -/
theorem decodeMessage_frame (mid payload : List Nat) (flags ci tc : Nat)
    (h : mid.length = 8) (hci : ci < 65536) (htc : tc < 65536) :
    decodeMessage (flags :: (mid
        ++ [ci / 256 % 256, ci % 256, tc / 256 % 256, tc % 256] ++ payload))
    = .ok { flags := flags, messageId := mid, chunkIndex := ci,
            totalChunks := tc, payload := payload } := by
  have hlen : (flags :: (mid
      ++ [ci / 256 % 256, ci % 256, tc / 256 % 256, tc % 256]
      ++ payload)).length = 13 + payload.length := by
    simp [h]; omega
  have hshape : flags :: (mid
      ++ [ci / 256 % 256, ci % 256, tc / 256 % 256, tc % 256] ++ payload)
      = (flags :: mid)
        ++ ([ci / 256 % 256, ci % 256, tc / 256 % 256, tc % 256] ++ payload) := by
    simp
  have hmidlen : (flags :: mid).length = 9 := by simp [h]
  rw [decodeMessage]
  rw [if_neg (by rw [hlen]; simp [HEADER_SIZE])]
  have hid : ((flags :: (mid
      ++ [ci / 256 % 256, ci % 256, tc / 256 % 256, tc % 256]
      ++ payload)).take 9).drop 1 = mid := by
    rw [List.take_succ_cons, List.append_assoc, List.take_left' h,
      List.drop_one, List.tail_cons]
  have hg : ∀ k b, k < 4 →
      ((flags :: mid)
        ++ ([ci / 256 % 256, ci % 256, tc / 256 % 256, tc % 256]
          ++ payload)).getD (9 + k) b
      = [ci / 256 % 256, ci % 256, tc / 256 % 256, tc % 256].getD k b := by
    intro k b hk
    rw [List.getD_append_right _ _ _ _ (by omega)]
    rw [hmidlen]
    rw [List.getD_append _ _ _ _ (by simp; omega)]
    congr 1
    omega
  have hci2 : readU16BE (flags :: (mid
      ++ [ci / 256 % 256, ci % 256, tc / 256 % 256, tc % 256] ++ payload)) 9
      = ci := by
    rw [hshape, readU16BE]
    rw [show (9 : Nat) = 9 + 0 by rfl, hg 0 0 (by omega),
      show (9 + 0 + 1 : Nat) = 9 + 1 by rfl, hg 1 0 (by omega)]
    simpa using u16_roundtrip ci hci
  have htc2 : readU16BE (flags :: (mid
      ++ [ci / 256 % 256, ci % 256, tc / 256 % 256, tc % 256] ++ payload)) 11
      = tc := by
    rw [hshape, readU16BE]
    rw [show (11 : Nat) = 9 + 2 by rfl, hg 2 0 (by omega),
      show (9 + 2 + 1 : Nat) = 9 + 3 by rfl, hg 3 0 (by omega)]
    simpa using u16_roundtrip tc htc
  have hpl : (flags :: (mid
      ++ [ci / 256 % 256, ci % 256, tc / 256 % 256, tc % 256]
      ++ payload)).drop HEADER_SIZE = payload := by
    rw [hshape, HEADER_SIZE]
    rw [show (13 : Nat) = (flags :: mid).length + 4 by rw [hmidlen],
      List.drop_append]
    rfl
  rw [hid, hci2, htc2, hpl]
  simp

/-- `encodeMessage` on a short payload: one standalone frame in normal form. -/
theorem encodeMessage_standalone (mid : List Nat) (s : String)
    (h8 : mid.length = 8)
    (hle : (utf8Encode s).length ≤ MAX_PAYLOAD_SIZE) :
    encodeMessage mid s
      = [FLAGS_STANDALONE :: (mid ++ [0, 0, 0, 1] ++ utf8Encode s)] := by
  simp only [encodeMessage]
  rw [if_pos hle]
  rw [encode_frame_eq mid (utf8Encode s) FLAGS_STANDALONE 0 1 h8]

/-- `encodeMessage` on a long payload: `⌈len/661⌉` chunked frames in
normal form. -/
theorem encodeMessage_chunked (mid : List Nat) (s : String) (n : Nat)
    (h8 : mid.length = 8)
    (hgt : MAX_PAYLOAD_SIZE < (utf8Encode s).length)
    (hn : n = ((utf8Encode s).length + (MAX_PAYLOAD_SIZE - 1))
      / MAX_PAYLOAD_SIZE) :
    encodeMessage mid s = (List.range n).map (fun i =>
      FLAGS_CHUNKED :: (mid ++ [i / 256 % 256, i % 256, n / 256 % 256, n % 256]
        ++ ((utf8Encode s).drop (i * MAX_PAYLOAD_SIZE)).take MAX_PAYLOAD_SIZE)) := by
  simp only [encodeMessage]
  rw [if_neg (by omega)]
  subst hn
  refine List.map_congr_left ?_
  intro i _hi
  exact encode_frame_eq mid _ FLAGS_CHUNKED i _ h8

/-- Splitting a list into `⌈len/k⌉` consecutive `k`-blocks and flattening
them recovers the list. -/
theorem chunks_flatten (k : Nat) (hk : 0 < k) (L : List Nat) :
    (List.range ((L.length + (k - 1)) / k)).flatMap
      (fun i => (L.drop (i * k)).take k) = L := by
  suffices hgen : ∀ (n : Nat) (M : List Nat), M.length = n →
      (List.range ((M.length + (k - 1)) / k)).flatMap
        (fun i => (M.drop (i * k)).take k) = M by
    exact hgen L.length L rfl
  intro n
  induction n using Nat.strong_induction_on with
  | _ n ih =>
    intro L hn
    subst hn
    rcases Nat.eq_zero_or_pos L.length with hz | hpos
    · have : L = [] := List.length_eq_zero.mp hz
      subst this
      have : ((0 : Nat) + (k - 1)) / k = 0 := Nat.div_eq_of_lt (by omega)
      simp [this]
    rcases le_or_lt L.length k with hle | hlt
    · have h1 : (L.length + (k - 1)) / k = 1 := by
        have hlo : 1 * k ≤ L.length + (k - 1) := by omega
        have hhi : L.length + (k - 1) < (1 + 1) * k := by omega
        exact Nat.div_eq_of_lt_le hlo hhi
      rw [h1]
      rw [show List.range 1 = [0] from rfl]
      simp [List.take_of_length_le hle]
    · have hsplit : (L.length + (k - 1)) / k
          = ((L.drop k).length + (k - 1)) / k + 1 := by
        rw [List.length_drop]
        have : L.length + (k - 1) = (L.length - k + (k - 1)) + k := by omega
        rw [this, Nat.add_div_right _ hk]
      rw [hsplit, List.range_succ_eq_map]
      rw [List.flatMap_cons, List.flatMap_map]
      have hrest : ∀ i : Nat,
          (L.drop ((i + 1) * k)).take k = ((L.drop k).drop (i * k)).take k := by
        intro i
        rw [List.drop_drop]
        congr 2
        ring
      have hih := ih (L.drop k).length
        (by rw [List.length_drop]; omega) (L.drop k) rfl
      calc (L.drop (0 * k)).take k
            ++ (List.range (((L.drop k).length + (k - 1)) / k)).flatMap
                ((fun i => (L.drop (i * k)).take k) ∘ Nat.succ)
          = L.take k ++ (List.range (((L.drop k).length + (k - 1)) / k)).flatMap
                (fun i => ((L.drop k).drop (i * k)).take k) := by
            simp only [Nat.zero_mul, List.drop_zero]
            congr 1
            refine List.flatMap_congr ?_
            intro i _
            exact hrest i
        _ = L.take k ++ L.drop k := by rw [hih]
        _ = L := List.take_append_drop k L

theorem getD_map_range {α : Type} (f : Nat → α) {n i : Nat} (h : i < n) (b : α) :
    ((List.range n).map f).getD i b = f i := by
  rw [List.getD_eq_getElem?_getD, List.getElem?_map, List.getElem?_range h]
  rfl

/-- The payload of a decodable frame, `[]` for an undecodable one. -/
def decodedPayload (f : List Nat) : List Nat :=
  match decodeMessage f with
  | .ok d => d.payload
  | .error _ => []

/-- Claim C1 (amended): with an 8-byte message id, a plaintext whose UTF-8
encoding has at most 661 bytes encodes to exactly one frame, which decodes
to flags 0x00, total_chunks 1, chunk_index 0 and the UTF-8 payload.  A
longer plaintext encodes to `⌈len/661⌉` frames that all carry the same
message id and total_chunks, with chunk_index running `0..n-1` in order,
and the decoded payloads concatenate back to the UTF-8 encoding — provided
the chunk count is at most 65535; beyond that the two-byte big-endian
header fields wrap modulo 2^16 (see the counterexample). -/
theorem c1_frame_roundtrip (mid : List Nat) (s : String) (n : Nat)
    (h8 : mid.length = 8)
    (hn : n = ((utf8Encode s).length + (MAX_PAYLOAD_SIZE - 1))
      / MAX_PAYLOAD_SIZE)
    (hbound : n ≤ 65535) :
    ((utf8Encode s).length ≤ 661 →
      ∃ f, encodeMessage mid s = [f] ∧
        decodeMessage f
          = .ok ⟨FLAGS_STANDALONE, mid, 0, 1, utf8Encode s⟩) ∧
    (661 < (utf8Encode s).length →
      (encodeMessage mid s).length = n ∧
      (∀ i, i < n → decodeMessage ((encodeMessage mid s).getD i [])
        = .ok ⟨FLAGS_CHUNKED, mid, i, n,
            ((utf8Encode s).drop (i * 661)).take 661⟩) ∧
      (encodeMessage mid s).flatMap decodedPayload = utf8Encode s) := by
  constructor
  · intro hle
    refine ⟨_, encodeMessage_standalone mid s h8 hle, ?_⟩
    have := decodeMessage_frame mid (utf8Encode s) FLAGS_STANDALONE 0 1 h8
      (by norm_num) (by norm_num)
    simpa using this
  · intro hgt
    have hch := encodeMessage_chunked mid s n h8 hgt hn
    have hdec : ∀ i, i < n → decodeMessage ((encodeMessage mid s).getD i [])
        = .ok ⟨FLAGS_CHUNKED, mid, i, n,
            ((utf8Encode s).drop (i * 661)).take 661⟩ := by
      intro i hi
      rw [hch, getD_map_range _ hi]
      exact decodeMessage_frame mid _ FLAGS_CHUNKED i n h8 (by omega) (by omega)
    refine ⟨by rw [hch]; simp, hdec, ?_⟩
    have hpl : ∀ i, i ∈ List.range n →
        decodedPayload ((encodeMessage mid s).getD i [])
          = ((utf8Encode s).drop (i * 661)).take 661 := by
      intro i hi
      rw [decodedPayload, hdec i (List.mem_range.mp hi)]
    calc (encodeMessage mid s).flatMap decodedPayload
        = (List.range n).flatMap (fun i =>
            decodedPayload ((encodeMessage mid s).getD i [])) := by
          rw [hch, List.flatMap_map]
          refine List.flatMap_congr ?_
          intro i hi
          rw [getD_map_range _ (List.mem_range.mp hi)]
      _ = (List.range n).flatMap (fun i =>
            ((utf8Encode s).drop (i * 661)).take 661) :=
          List.flatMap_congr hpl
      _ = utf8Encode s := by
          have := chunks_flatten 661 (by norm_num) (utf8Encode s)
          rw [hn]
          simpa [MAX_PAYLOAD_SIZE] using this

/-- Message id used in concrete frame-codec checks. -/
def c1Mid : List Nat := [1, 2, 3, 4, 5, 6, 7, 8]

/-- A two-character plaintext. -/
def gmS : String := "gm"

/-- A 662-character plaintext, one byte over the single-frame limit. -/
def aLong : String := String.mk (List.replicate 662 (Char.ofNat 97))

/-- UTF-8 encoding of a run of the ASCII letter a. -/
theorem utf8Encode_replicate_a (n : Nat) :
    utf8Encode (String.mk (List.replicate n (Char.ofNat 97)))
      = List.replicate n 97 := by
  induction n with
  | zero => rfl
  | succ m ih =>
    rw [List.replicate_succ, List.replicate_succ]
    show utf8EncodeChar (Char.ofNat 97)
      ++ (List.replicate m (Char.ofNat 97)).flatMap utf8EncodeChar
      = 97 :: List.replicate m 97
    rw [show utf8EncodeChar (Char.ofNat 97) = [97] from rfl]
    exact congrArg (97 :: ·) ih

theorem c1_frame_roundtrip_witness :
    (∃ f, encodeMessage c1Mid gmS = [f] ∧
      decodeMessage f = .ok ⟨FLAGS_STANDALONE, c1Mid, 0, 1, utf8Encode gmS⟩) ∧
    (encodeMessage c1Mid aLong).length = 2 := by
  have hl : (utf8Encode aLong).length = 662 := by
    rw [show utf8Encode aLong
      = utf8Encode (String.mk (List.replicate 662 (Char.ofNat 97)))
      from rfl, utf8Encode_replicate_a, List.length_replicate]
  constructor
  · exact (c1_frame_roundtrip c1Mid gmS 1 (by decide) (by decide)
      (by decide)).1 (by decide)
  · exact ((c1_frame_roundtrip c1Mid aLong 2 (by decide)
      (by rw [hl, MAX_PAYLOAD_SIZE]) (by omega)).2 (by rw [hl]; omega)).1

/-- A plaintext of 43319297 bytes, which needs 65537 chunks. -/
def c1Big : String := String.mk (List.replicate 43319297 (Char.ofNat 97))

/-- Claim C1 counterexample: for the 43319297-byte plaintext `c1Big` (which
exceeds 661 bytes, so the chunked clause of the claim applies), the frame at
position 65536 decodes with chunk_index 0, not 65536: chunk_index does not
run `0..n-1`, because the two-byte big-endian field wraps modulo 2^16. -/
theorem c1_counterexample :
    661 < (utf8Encode c1Big).length ∧
    ¬ (∀ i, i < (encodeMessage c1Mid c1Big).length →
        (decodeMessage ((encodeMessage c1Mid c1Big).getD i [])).map
          DecodedMessage.chunkIndex = .ok i) := by
  have hres := utf8Encode_replicate_a 43319297
  have hlen : (utf8Encode c1Big).length = 43319297 := by
    rw [show utf8Encode c1Big
      = utf8Encode (String.mk (List.replicate 43319297 (Char.ofNat 97)))
      from rfl, hres, List.length_replicate]
  have hn : (65537 : Nat) = ((utf8Encode c1Big).length
      + (MAX_PAYLOAD_SIZE - 1)) / MAX_PAYLOAD_SIZE := by
    rw [hlen]; rfl
  have hch := encodeMessage_chunked c1Mid c1Big 65537 (by decide)
    (by rw [MAX_PAYLOAD_SIZE, hlen]; omega) hn
  constructor
  · rw [hlen]; omega
  · intro hall
    have hlen2 : (encodeMessage c1Mid c1Big).length = 65537 := by
      rw [hch]; simp
    have h := hall 65536 (by rw [hlen2]; omega)
    rw [hch, getD_map_range _ (show 65536 < 65537 by omega)] at h
    have hbytes : [65536 / 256 % 256, 65536 % 256, 65537 / 256 % 256,
        65537 % 256] = [0 / 256 % 256, 0 % 256, 1 / 256 % 256, 1 % 256] := by
      norm_num
    rw [hbytes] at h
    have hchunk : ((utf8Encode c1Big).drop
        (65536 * MAX_PAYLOAD_SIZE)).take MAX_PAYLOAD_SIZE = [97] := by
      rw [show utf8Encode c1Big
        = utf8Encode (String.mk (List.replicate 43319297 (Char.ofNat 97)))
        from rfl, hres, List.drop_replicate, List.take_replicate]
      rw [MAX_PAYLOAD_SIZE]
      norm_num
    rw [hchunk] at h
    rw [decodeMessage_frame c1Mid [97] FLAGS_CHUNKED 0 1 (by decide)
      (by norm_num) (by norm_num)] at h
    simp [Except.map] at h

/-! ## Instruction data layouts (`src/sdk/src/instructions.ts`)

The four builders produce `{programAddress, accounts, data}`; the claims
under verification concern the `data` byte string, modelled here.
`buildSendMessageInstruction` passes `addressToBytes(recipient)` (the
32-byte key behind the base58 address) to `serializeSendMessageData`;
`register`/`update`/`deregister` fill their buffers inline. -/

def SEND_MESSAGE_DISC : List Nat := [57, 40, 34, 178, 189, 10, 65, 26]

def REGISTER_DISC : List Nat := [211, 124, 67, 15, 211, 194, 178, 240]

def UPDATE_ENCRYPTION_KEY_DISC : List Nat :=
  [92, 233, 29, 101, 152, 97, 110, 235]

def DEREGISTER_DISC : List Nat := [161, 178, 39, 189, 231, 224, 13, 187]

/-- `DataView.setUint32(offset, value, true)`: little-endian write of
`value mod 2^32` into four bytes. -/
def setU32LE (buf : List Nat) (off value : Nat) : List Nat :=
  let w := value % 4294967296
  bufSet buf [w % 256, w / 256 % 256, w / 65536 % 256, w / 16777216 % 256] off

/-- `serializeSendMessageData(recipientPubkey, ciphertext, nonce)`. -/
def serializeSendMessageData (recipientPubkey ciphertext nonce : List Nat) :
    List Nat :=
  let buf := List.replicate (8 + 32 + 4 + ciphertext.length + 24) 0
  let buf := bufSet buf SEND_MESSAGE_DISC 0
  let buf := bufSet buf recipientPubkey 8
  let buf := setU32LE buf 40 ciphertext.length
  let buf := bufSet buf ciphertext 44
  let buf := bufSet buf nonce (44 + ciphertext.length)
  buf

/-- The `data` field built by `buildRegisterInstruction`. -/
def buildRegisterInstructionData (encryptionPubkey : List Nat) : List Nat :=
  bufSet (bufSet (List.replicate 40 0) REGISTER_DISC 0) encryptionPubkey 8

/-- The `data` field built by `buildUpdateEncryptionKeyInstruction`. -/
def buildUpdateEncryptionKeyInstructionData (newEncryptionPubkey : List Nat) :
    List Nat :=
  bufSet (bufSet (List.replicate 40 0) UPDATE_ENCRYPTION_KEY_DISC 0)
    newEncryptionPubkey 8

/-- The `data` field built by `buildDeregisterInstruction`. -/
def buildDeregisterInstructionData : List Nat :=
  bufSet (List.replicate 8 0) DEREGISTER_DISC 0

/-- Little-endian four-byte rendering of a value below `2 ^ 32`. -/
def u32le (v : Nat) : List Nat :=
  [v % 256, v / 256 % 256, v / 65536 % 256, v / 16777216 % 256]

/-- Overwriting the zero segment that follows an already-written prefix. -/
theorem bufSet_pref (p seg rest src : List Nat) (off : Nat)
    (hoff : p.length = off) (hseg : seg.length = src.length) :
    bufSet (p ++ (seg ++ rest)) src off = (p ++ src) ++ rest := by
  subst hoff
  rw [bufSet_exact p rest hseg, List.append_assoc]

/-- Overwriting an initial zero segment. -/
theorem bufSet_zero_pref (seg rest src : List Nat)
    (hseg : seg.length = src.length) :
    bufSet (seg ++ rest) src 0 = src ++ rest := by
  have := bufSet_pref [] seg rest src 0 rfl hseg
  simpa using this

theorem registerLike_data_eq (disc pk : List Nat) (hd : disc.length = 8)
    (hpk : pk.length = 32) :
    bufSet (bufSet (List.replicate 40 0) disc 0) pk 8 = disc ++ pk := by
  have hsplit : List.replicate 40 (0 : Nat)
      = List.replicate 8 0 ++ (List.replicate 32 0 ++ []) := by
    rw [List.append_nil, ← List.replicate_add]
  rw [hsplit]
  rw [bufSet_zero_pref _ _ _ (by simp [hd])]
  rw [show bufSet (disc ++ (List.replicate 32 0 ++ [])) pk 8
      = (disc ++ pk) ++ [] from
    bufSet_pref disc (List.replicate 32 0) [] pk 8 hd (by simp [hpk])]
  rw [List.append_nil]

/-- Claim C2: the instruction wire layouts.  For a 32-byte recipient key, a
ciphertext below 2^32 bytes and a 24-byte nonce, `send_message` data is the
discriminator 39 28 22 B2 BD 0A 41 1A, the recipient key, the ciphertext
length as u32 little-endian, the ciphertext and the nonce; `register` data
is D3 7C 43 0F D3 C2 B2 F0 followed by the 32-byte encryption key;
`update_encryption_key` data is 5C E9 1D 65 98 61 6E EB followed by the
32-byte new key; `deregister` data is exactly A1 B2 27 BD E7 E0 0D BB. -/
theorem c2_instruction_layout (recipient ct nonce encPk newPk : List Nat)
    (hr : recipient.length = 32) (hnz : nonce.length = 24)
    (hct : ct.length < 4294967296)
    (he : encPk.length = 32) (hu : newPk.length = 32) :
    serializeSendMessageData recipient ct nonce
      = [0x39, 0x28, 0x22, 0xB2, 0xBD, 0x0A, 0x41, 0x1A] ++ recipient
        ++ u32le ct.length ++ ct ++ nonce ∧
    buildRegisterInstructionData encPk
      = [0xD3, 0x7C, 0x43, 0x0F, 0xD3, 0xC2, 0xB2, 0xF0] ++ encPk ∧
    buildUpdateEncryptionKeyInstructionData newPk
      = [0x5C, 0xE9, 0x1D, 0x65, 0x98, 0x61, 0x6E, 0xEB] ++ newPk ∧
    buildDeregisterInstructionData
      = [0xA1, 0xB2, 0x27, 0xBD, 0xE7, 0xE0, 0x0D, 0xBB] := by
  refine ⟨?_, ?_, ?_, ?_⟩
  · have hw : ct.length % 4294967296 = ct.length := Nat.mod_eq_of_lt hct
    simp only [serializeSendMessageData, setU32LE, hw]
    have hsplit : List.replicate (8 + 32 + 4 + ct.length + 24) (0 : Nat)
        = List.replicate 8 0 ++ (List.replicate 32 0 ++ (List.replicate 4 0
            ++ (List.replicate ct.length 0 ++ (List.replicate 24 0 ++ [])))) := by
      simp only [List.append_nil, ← List.replicate_add]
      congr 1
      omega
    rw [hsplit]
    rw [bufSet_zero_pref _ _ _ (by simp [SEND_MESSAGE_DISC])]
    rw [bufSet_pref SEND_MESSAGE_DISC (List.replicate 32 0)
      (List.replicate 4 0 ++ (List.replicate ct.length 0
        ++ (List.replicate 24 0 ++ [])))
      recipient 8 rfl (by simp [hr])]
    rw [bufSet_pref (SEND_MESSAGE_DISC ++ recipient) (List.replicate 4 0)
      (List.replicate ct.length 0 ++ (List.replicate 24 0 ++ []))
      [ct.length % 256, ct.length / 256 % 256, ct.length / 65536 % 256,
        ct.length / 16777216 % 256]
      40 (by simp [SEND_MESSAGE_DISC, hr]) (by simp)]
    rw [bufSet_pref ((SEND_MESSAGE_DISC ++ recipient)
        ++ [ct.length % 256, ct.length / 256 % 256, ct.length / 65536 % 256,
          ct.length / 16777216 % 256])
      (List.replicate ct.length 0) (List.replicate 24 0 ++ []) ct
      44 (by simp [SEND_MESSAGE_DISC, hr]) (by simp)]
    rw [bufSet_pref (((SEND_MESSAGE_DISC ++ recipient)
        ++ [ct.length % 256, ct.length / 256 % 256, ct.length / 65536 % 256,
          ct.length / 16777216 % 256]) ++ ct)
      (List.replicate 24 0) [] nonce
      (44 + ct.length) (by simp [SEND_MESSAGE_DISC, hr]; omega)
      (by simp [hnz])]
    simp [SEND_MESSAGE_DISC, u32le, List.append_assoc]
  · rw [buildRegisterInstructionData,
      registerLike_data_eq REGISTER_DISC encPk rfl he]
    rfl
  · rw [buildUpdateEncryptionKeyInstructionData,
      registerLike_data_eq UPDATE_ENCRYPTION_KEY_DISC newPk rfl hu]
    rfl
  · rfl

theorem c2_instruction_layout_witness :
    serializeSendMessageData (List.replicate 32 2) [9, 9, 9]
        (List.replicate 24 3)
      = [0x39, 0x28, 0x22, 0xB2, 0xBD, 0x0A, 0x41, 0x1A]
        ++ List.replicate 32 2 ++ u32le 3 ++ [9, 9, 9]
        ++ List.replicate 24 3 ∧
    buildRegisterInstructionData (List.replicate 32 4)
      = [0xD3, 0x7C, 0x43, 0x0F, 0xD3, 0xC2, 0xB2, 0xF0]
        ++ List.replicate 32 4 := by
  have h := c2_instruction_layout (List.replicate 32 2) [9, 9, 9]
    (List.replicate 24 3) (List.replicate 32 4) (List.replicate 32 5)
    (by decide) (by decide) (by decide) (by decide) (by decide)
  exact ⟨h.1, h.2.1⟩

/-! ## Base58, hex and base64 primitives

`@solana/kit`'s `getBase58Decoder().decode` renders bytes as a base58
string (one leading 1 per leading zero byte, then big-endian base58
digits); `utils.ts`'s `hexEncode` renders two lowercase hex digits per
byte; the event parser base64-decodes via `atob`, whose forgiving-base64
behaviour (strip ASCII whitespace, strip up to two trailing padding signs
when the length is a multiple of four, reject a remainder of one or any
character outside the alphabet) is modelled by `jsAtob`. -/

def BASE58_ALPHABET : List Char :=
  "123456789ABCDEFGHJKLMNPQRSTUVWXYZabcdefghijkmnopqrstuvwxyz".data

/-- Base58 digits of `n`, least significant first; the fuel, chosen by the
caller, must exceed the digit count. -/
def natToBase58Rev : Nat → Nat → List Char
  | 0, _ => []
  | _ + 1, 0 => []
  | fuel + 1, n =>
    BASE58_ALPHABET.getD (n % 58) (Char.ofNat 49)
      :: natToBase58Rev fuel (n / 58)

/-- Big-endian byte-string value. -/
def bytesToNatBE (bs : List Nat) : Nat :=
  bs.foldl (fun acc b => acc * 256 + b) 0

def countLeadingZeroBytes : List Nat → Nat
  | [] => 0
  | b :: rest => if b = 0 then countLeadingZeroBytes rest + 1 else 0

/-- Base58 rendering of a byte string (bitcoin alphabet). -/
def base58Encode (bs : List Nat) : String :=
  String.mk (List.replicate (countLeadingZeroBytes bs) (Char.ofNat 49)
    ++ (natToBase58Rev (2 * bs.length + 1) (bytesToNatBE bs)).reverse)

def hexDigits : List Char := "0123456789abcdef".data

/-- `hexEncode` of `utils.ts`: two lowercase hex digits per byte. -/
def hexEncode (bs : List Nat) : String :=
  String.mk (bs.flatMap (fun b => [hexDigits.getD (b / 16 % 16) (Char.ofNat 48),
    hexDigits.getD (b % 16) (Char.ofNat 48)]))

def b64Alphabet : List Char :=
  "ABCDEFGHIJKLMNOPQRSTUVWXYZabcdefghijklmnopqrstuvwxyz0123456789+/".data

def b64Chr (n : Nat) : Char := b64Alphabet.getD n (Char.ofNat 65)

def b64CharVal (c : Char) : Option Nat := b64Alphabet.findIdx? (· = c)

def isAsciiWhitespace (c : Char) : Bool :=
  c = Char.ofNat 9 ∨ c = Char.ofNat 10 ∨ c = Char.ofNat 12
    ∨ c = Char.ofNat 13 ∨ c = Char.ofNat 32

/-- Decode a cleaned base64 six-bit-value string; the length is 0, 2 or 3
modulo 4, trailing bits are discarded. -/
def b64DecodeGroups : List Nat → Option (List Nat)
  | [] => some []
  | [_] => none
  | [a, b] => some [a * 4 + b / 16]
  | [a, b, c] => some [a * 4 + b / 16, b % 16 * 16 + c / 4]
  | a :: b :: c :: d :: rest =>
    (b64DecodeGroups rest).map (fun tl =>
      (a * 4 + b / 16) :: ((b % 16 * 16 + c / 4) :: ((c % 4 * 64 + d) :: tl)))

/-- Strip up to two trailing padding signs. -/
def stripBase64Pad (cs : List Char) : List Char :=
  let cs1 := if cs.getLast? = some (Char.ofNat 61) then cs.dropLast else cs
  if cs1.getLast? = some (Char.ofNat 61) then cs1.dropLast else cs1

/-- `atob` (WHATWG forgiving-base64 decode) on a character list. -/
def jsAtob (cs : List Char) : Option (List Nat) :=
  let cs := cs.filter (fun c => !(isAsciiWhitespace c))
  let cs := if cs.length % 4 = 0 then stripBase64Pad cs else cs
  if cs.length % 4 = 1 then none
  else
    let vals := cs.map b64CharVal
    if vals.any (·.isNone) then none
    else b64DecodeGroups (vals.map (·.getD 0))

/-- Six-bit values of the base64 rendering of a byte string (no padding). -/
def b64EncVals : List Nat → List Nat
  | [] => []
  | [a] => [a / 4, a % 4 * 16]
  | [a, b] => [a / 4, a % 4 * 16 + b / 16, b % 16 * 4]
  | a :: b :: c :: rest =>
    (a / 4) :: ((a % 4 * 16 + b / 16) :: ((b % 16 * 4 + c / 64) :: ((c % 64)
      :: b64EncVals rest)))

/-- Standard padded base64 rendering of a byte string. -/
def base64Encode (bs : List Nat) : String :=
  String.mk ((b64EncVals bs).map b64Chr
    ++ (if bs.length % 3 = 1 then [Char.ofNat 61, Char.ofNat 61]
        else if bs.length % 3 = 2 then [Char.ofNat 61] else []))

/-! ## JavaScript numeric reads of the event parser -/

/-- Array indexing in a JavaScript bitwise expression: an out-of-range
index yields `undefined`, which coerces to 0. -/
def jsByte (d : List Nat) (i : Int) : Nat :=
  if 0 ≤ i then d.getD i.toNat 0 else 0

/-- `readU32LE` of the events module: four little-endian bytes combined
with `|`, so the result is the 32-bit pattern reinterpreted as signed. -/
def readU32LE (d : List Nat) (off : Int) : Int :=
  toInt32 (jsByte d off + jsByte d (off + 1) * 256
    + jsByte d (off + 2) * 65536 + jsByte d (off + 3) * 16777216)

/-- `readI64LE` of the events module: two 32-bit halves, each read like
`readU32LE` (the final `|` forces a signed reinterpretation), combined as
`lo + hi * 2^32` in exact arithmetic. -/
def readI64LE (d : List Nat) (off : Int) : Int :=
  readU32LE d off + readU32LE d (off + 4) * 4294967296

/-- `Uint8Array.prototype.subarray` with possibly negative or
out-of-range indices: negative indices count from the end, and the range
is clamped to the array. -/
def jsSubarray (d : List Nat) (a b : Int) : List Nat :=
  let len : Int := (d.length : Int)
  let ra := if a < 0 then max (len + a) 0 else min a len
  let rb := if b < 0 then max (len + b) 0 else min b len
  (d.take rb.toNat).drop ra.toNat

/-! ## Event parser (`events.ts` `parseMessageSentEvents`) -/

def MESSAGE_SENT_DISCRIMINATOR : List Nat := [116, 70, 224, 76, 128, 28, 110, 55]

/-- The scanned marker; the source calls it `prefix`. -/
def marker : String := "Program data: "

/-- `String.prototype.indexOf`: position of the first occurrence of `pat`
in the haystack, if any. -/
def strIndexOfAux (pat : List Char) : List Char → Option Nat
  | [] => if pat.isPrefixOf ([] : List Char) then some 0 else none
  | c :: tl =>
    if pat.isPrefixOf (c :: tl) then some 0
    else (strIndexOfAux pat tl).map (· + 1)

/-- Code points removed by `String.prototype.trim`. -/
def isJsTrimWhite (c : Char) : Bool :=
  c.toNat = 9 ∨ c.toNat = 10 ∨ c.toNat = 11 ∨ c.toNat = 12 ∨ c.toNat = 13
    ∨ c.toNat = 32 ∨ c.toNat = 160 ∨ c.toNat = 5760
    ∨ (8192 ≤ c.toNat ∧ c.toNat ≤ 8202)
    ∨ c.toNat = 8232 ∨ c.toNat = 8233 ∨ c.toNat = 8239 ∨ c.toNat = 8287
    ∨ c.toNat = 12288 ∨ c.toNat = 65279

/-- `String.prototype.trim` on a character list. -/
def jsTrim (cs : List Char) : List Char :=
  ((cs.dropWhile isJsTrimWhite).reverse.dropWhile isJsTrimWhite).reverse

/-- `MessageSentEvent` of `types.ts`; `txSignature` is optional and unset
by the parser. -/
structure MessageSentEvent where
  sender : String
  recipient : String
  ciphertext : List Nat
  nonce : List Nat
  timestamp : Int
  txSignature : Option String
deriving DecidableEq, Repr

/-- One iteration of the parser loop: the event pushed for a log line, if
any.  Every `continue` of the source becomes `none`. -/
def parseLogLine (line : List Char) : Option MessageSentEvent :=
  match strIndexOfAux marker.data line with
  | none => none
  | some idx =>
    match jsAtob (jsTrim (line.drop (idx + 14))) with
    | none => none
    | some data =>
      if data.length < 8 then none
      else if data.take 8 ≠ MESSAGE_SENT_DISCRIMINATOR then none
      else
        let ctLen := readU32LE data 72
        let off2 : Int := 76 + ctLen
        some { sender := base58Encode (jsSubarray data 8 40)
               recipient := base58Encode (jsSubarray data 40 72)
               ciphertext := jsSubarray data 76 (76 + ctLen)
               nonce := jsSubarray data off2 (off2 + 24)
               timestamp := readI64LE data (off2 + 24)
               txSignature := none }

/-- `parseMessageSentEvents(logs)`. -/
def parseMessageSentEvents (logs : List String) : List MessageSentEvent :=
  logs.filterMap (fun line => parseLogLine line.data)

/-- Little-endian eight-byte rendering of a value below `2 ^ 64`. -/
def i64le (t : Nat) : List Nat :=
  [t % 256, t / 256 % 256, t / 65536 % 256, t / 16777216 % 256,
   t / 4294967296 % 256, t / 1099511627776 % 256,
   t / 281474976710656 % 256, t / 72057594037927936 % 256]

theorem strIndexOfAux_of_isPrefixOf (pat hay : List Char)
    (h : pat.isPrefixOf hay = true) : strIndexOfAux pat hay = some 0 := by
  cases hay with
  | nil => rw [strIndexOfAux, if_pos h]
  | cons c tl => rw [strIndexOfAux, if_pos h]

theorem getD_at (pre mid rest : List Nat) (off k b : Nat)
    (hoff : pre.length = off) (hk : k < mid.length) :
    (pre ++ (mid ++ rest)).getD (off + k) b = mid.getD k b := by
  subst hoff
  rw [List.getD_append_right _ _ _ _ (Nat.le_add_right _ _),
    Nat.add_sub_cancel_left, List.getD_append _ _ _ _ hk]

theorem slice_at (pre mid rest : List Nat) (a b : Nat)
    (ha : pre.length = a) (hb : a + mid.length = b) :
    ((pre ++ (mid ++ rest)).take b).drop a = mid := by
  rw [List.take_append_eq_append_take,
    List.take_of_length_le (by omega),
    show b - pre.length = mid.length by omega,
    List.take_left]
  rw [← ha, List.drop_left]

theorem jsSubarray_nat (d : List Nat) (a b : Nat) (hab : a ≤ b)
    (hb : b ≤ d.length) :
    jsSubarray d (a : Int) (b : Int) = (d.take b).drop a := by
  simp only [jsSubarray]
  rw [if_neg (by omega), if_neg (by omega)]
  have h1 : min (a : Int) (d.length : Int) = (a : Int) := by omega
  have h2 : min (b : Int) (d.length : Int) = (b : Int) := by omega
  rw [h1, h2, Int.toNat_ofNat, Int.toNat_ofNat]

theorem parse_singleton (line : String) :
    parseMessageSentEvents [line] = (parseLogLine line.data).toList := by
  cases h : parseLogLine line.data <;>
    simp [parseMessageSentEvents, List.filterMap, h]

theorem jsByte_at (pre mid rest : List Nat) (i : Int) (off k : Nat)
    (hi : i = (off : Int) + (k : Int)) (hoff : pre.length = off)
    (hk : k < mid.length) :
    jsByte (pre ++ (mid ++ rest)) i = mid.getD k 0 := by
  rw [hi, show ((off : Int) + (k : Int)) = ((off + k : Nat) : Int) by
    push_cast; ring]
  rw [jsByte, if_pos (Int.natCast_nonneg _), Int.toNat_natCast]
  exact getD_at pre mid rest off k 0 hoff hk

/-- Claim C3 (amended): the parser scans each line for the first occurrence
of the marker `"Program data: "` anywhere in the line (not only as a
prefix), trims the remainder and forgiving-base64-decodes it; lines
without the marker, with undecodable base64, or whose payload is shorter
than eight bytes or carries a different discriminator contribute no event
and raise no error; lines are processed independently and in order; and a
payload consisting of the discriminator 74 46 E0 4C 80 1C 6E 37 followed
by sender(32), recipient(32), ct_len(u32 LE, below 2^31), ciphertext,
nonce(24) and a timestamp(i64 LE, in [0, 2^31)) yields exactly the
corresponding event.  (Payloads with the right discriminator but truncated
fields still yield an event, with the missing bytes read as zero or empty
— see the counterexample.) -/
theorem c3_event_parse :
    (∀ l1 l2 : List String, parseMessageSentEvents (l1 ++ l2)
      = parseMessageSentEvents l1 ++ parseMessageSentEvents l2) ∧
    (∀ line : String, parseMessageSentEvents [line] = [] ↔
      (strIndexOfAux marker.data line.data = none ∨
       ∃ idx, strIndexOfAux marker.data line.data = some idx ∧
         (jsAtob (jsTrim (line.data.drop (idx + 14))) = none ∨
          ∃ data, jsAtob (jsTrim (line.data.drop (idx + 14))) = some data ∧
            (data.length < 8 ∨
              data.take 8 ≠ MESSAGE_SENT_DISCRIMINATOR)))) ∧
    (∀ (b64 : List Char) (snd rcp ct nz : List Nat) (t : Nat),
      snd.length = 32 → rcp.length = 32 → nz.length = 24 →
      ct.length < 2147483648 → t < 2147483648 →
      jsAtob (jsTrim b64) = some (MESSAGE_SENT_DISCRIMINATOR ++ (snd ++ (rcp
        ++ (u32le ct.length ++ (ct ++ (nz ++ i64le t)))))) →
      parseMessageSentEvents [String.mk (marker.data ++ b64)]
        = [⟨base58Encode snd, base58Encode rcp, ct, nz, (t : Int), none⟩]) := by
  refine ⟨fun l1 l2 => List.filterMap_append l1 l2 _, ?_, ?_⟩
  · intro line
    rw [parse_singleton]
    cases h1 : strIndexOfAux marker.data line.data with
    | none => simp [parseLogLine, h1]
    | some idx =>
      cases h2 : jsAtob (jsTrim (line.data.drop (idx + 14))) with
      | none => simp [parseLogLine, h1, h2]
      | some data =>
        by_cases h3 : data.length < 8
        · simp [parseLogLine, h1, h2, h3]
        · by_cases h4 : data.take 8 = MESSAGE_SENT_DISCRIMINATOR
          · simp [parseLogLine, h1, h2, h3, h4]
          · simp [parseLogLine, h1, h2, h3, h4]
  · intro b64 snd rcp ct nz t hsnd hrcp hnz hct ht hdec
    rw [parse_singleton]
    have hpre : strIndexOfAux marker.data (marker.data ++ b64) = some 0 :=
      strIndexOfAux_of_isPrefixOf _ _
        (List.isPrefixOf_iff_prefix.mpr (List.prefix_append _ _))
    have hdrop : (marker.data ++ b64).drop (0 + 14) = b64 :=
      List.drop_left' (by decide)
    suffices hout : parseLogLine (marker.data ++ b64)
        = some ⟨base58Encode snd, base58Encode rcp, ct, nz, (t : Int),
            none⟩ by
      rw [show (String.mk (marker.data ++ b64)).data
        = marker.data ++ b64 from rfl, hout]
      rfl
    simp only [parseLogLine, hpre, hdrop, hdec]
    set data := MESSAGE_SENT_DISCRIMINATOR ++ (snd ++ (rcp
      ++ (u32le ct.length ++ (ct ++ (nz ++ i64le t))))) with hdef
    have hdlen : data.length = 108 + ct.length := by
      rw [hdef]
      simp [MESSAGE_SENT_DISCRIMINATOR, u32le, i64le, hsnd, hrcp, hnz]
      omega
    rw [if_neg (by omega)]
    rw [if_neg (fun hne => hne (hdef ▸ List.take_left' (by decide)))]
    have h40 : data = (MESSAGE_SENT_DISCRIMINATOR ++ snd)
        ++ (rcp ++ (u32le ct.length ++ (ct ++ (nz ++ i64le t)))) := by
      rw [hdef]; simp [List.append_assoc]
    have h72 : data = ((MESSAGE_SENT_DISCRIMINATOR ++ snd) ++ rcp)
        ++ (u32le ct.length ++ (ct ++ (nz ++ i64le t))) := by
      rw [hdef]; simp [List.append_assoc]
    have h76 : data = (((MESSAGE_SENT_DISCRIMINATOR ++ snd) ++ rcp)
        ++ u32le ct.length) ++ (ct ++ (nz ++ i64le t)) := by
      rw [hdef]; simp [List.append_assoc]
    have h76L : data = ((((MESSAGE_SENT_DISCRIMINATOR ++ snd) ++ rcp)
        ++ u32le ct.length) ++ ct) ++ (nz ++ i64le t) := by
      rw [hdef]; simp [List.append_assoc]
    have h100L : data = (((((MESSAGE_SENT_DISCRIMINATOR ++ snd) ++ rcp)
        ++ u32le ct.length) ++ ct) ++ nz) ++ (i64le t ++ []) := by
      rw [hdef]; simp [List.append_assoc]
    have hlen72 : ((MESSAGE_SENT_DISCRIMINATOR ++ snd) ++ rcp).length = 72 := by
      simp [MESSAGE_SENT_DISCRIMINATOR, hsnd, hrcp]
    have hlen76 : (((MESSAGE_SENT_DISCRIMINATOR ++ snd) ++ rcp)
        ++ u32le ct.length).length = 76 := by
      simp [MESSAGE_SENT_DISCRIMINATOR, u32le, hsnd, hrcp]
    have hlen76L : ((((MESSAGE_SENT_DISCRIMINATOR ++ snd) ++ rcp)
        ++ u32le ct.length) ++ ct).length = 76 + ct.length := by
      simp [MESSAGE_SENT_DISCRIMINATOR, u32le, hsnd, hrcp]
      omega
    have hlen100L : (((((MESSAGE_SENT_DISCRIMINATOR ++ snd) ++ rcp)
        ++ u32le ct.length) ++ ct) ++ nz).length = 100 + ct.length := by
      simp [MESSAGE_SENT_DISCRIMINATOR, u32le, hsnd, hrcp, hnz]
      omega
    have hu32len : (u32le ct.length).length = 4 := by simp [u32le]
    have hi64len : (i64le t).length = 8 := by simp [i64le]
    have hclen : readU32LE data 72 = (ct.length : Int) := by
      rw [h72, readU32LE]
      rw [jsByte_at _ _ _ _ 72 0 (by push_cast; try ring) hlen72 (by simp [u32le]),
          jsByte_at _ _ _ _ 72 1 (by push_cast; try ring) hlen72 (by simp [u32le]),
          jsByte_at _ _ _ _ 72 2 (by push_cast; try ring) hlen72 (by simp [u32le]),
          jsByte_at _ _ _ _ 72 3 (by push_cast; try ring) hlen72 (by simp [u32le])]
      rw [show (u32le ct.length).getD 0 0 = ct.length % 256 from rfl,
          show (u32le ct.length).getD 1 0 = ct.length / 256 % 256 from rfl,
          show (u32le ct.length).getD 2 0 = ct.length / 65536 % 256 from rfl,
          show (u32le ct.length).getD 3 0
            = ct.length / 16777216 % 256 from rfl]
      rw [show ct.length % 256 + ct.length / 256 % 256 * 256
          + ct.length / 65536 % 256 * 65536
          + ct.length / 16777216 % 256 * 16777216 = ct.length by omega]
      simp only [toInt32]
      rw [Nat.mod_eq_of_lt (by omega), if_pos (by omega)]
    rw [hclen]
    rw [show ((76 : Int) + (ct.length : Int)) + 24
        = ((100 + ct.length : Nat) : Int) by push_cast; ring]
    rw [show (76 : Int) + (ct.length : Int)
        = ((76 + ct.length : Nat) : Int) by push_cast; ring]
    have hsnd2 : jsSubarray data 8 40 = snd := by
      have hs := jsSubarray_nat data 8 40 (by omega) (by omega)
      rw [show ((8 : Nat) : Int) = (8 : Int) by norm_num,
          show ((40 : Nat) : Int) = (40 : Int) by norm_num] at hs
      rw [hs, hdef]
      exact slice_at _ _ _ 8 40 (by decide) (by omega)
    have hrcp2 : jsSubarray data 40 72 = rcp := by
      have hs := jsSubarray_nat data 40 72 (by omega) (by omega)
      rw [show ((40 : Nat) : Int) = (40 : Int) by norm_num,
          show ((72 : Nat) : Int) = (72 : Int) by norm_num] at hs
      rw [hs, h40]
      exact slice_at _ _ _ 40 72 (by simp [MESSAGE_SENT_DISCRIMINATOR, hsnd])
        (by omega)
    have hcip : jsSubarray data 76 ((76 + ct.length : Nat) : Int) = ct := by
      have hs := jsSubarray_nat data 76 (76 + ct.length) (by omega) (by omega)
      rw [show ((76 : Nat) : Int) = (76 : Int) by norm_num] at hs
      rw [hs, h76]
      exact slice_at _ _ _ 76 (76 + ct.length) hlen76 (by omega)
    have hnz2 : jsSubarray data ((76 + ct.length : Nat) : Int)
        ((100 + ct.length : Nat) : Int) = nz := by
      have hs := jsSubarray_nat data (76 + ct.length) (100 + ct.length)
        (by omega) (by omega)
      rw [hs, h76L]
      exact slice_at _ _ _ (76 + ct.length) (100 + ct.length) hlen76L
        (by omega)
    have hts : readI64LE data ((100 + ct.length : Nat) : Int) = (t : Int) := by
      rw [readI64LE, h100L, readU32LE, readU32LE]
      rw [jsByte_at _ _ _ _ (100 + ct.length) 0 (by push_cast; try ring)
            hlen100L (by simp [i64le]),
          jsByte_at _ _ _ _ (100 + ct.length) 1 (by push_cast; try ring)
            hlen100L (by simp [i64le]),
          jsByte_at _ _ _ _ (100 + ct.length) 2 (by push_cast; try ring)
            hlen100L (by simp [i64le]),
          jsByte_at _ _ _ _ (100 + ct.length) 3 (by push_cast; try ring)
            hlen100L (by simp [i64le]),
          jsByte_at _ _ _ _ (100 + ct.length) 4 (by push_cast; try ring)
            hlen100L (by simp [i64le]),
          jsByte_at _ _ _ _ (100 + ct.length) 5 (by push_cast; try ring)
            hlen100L (by simp [i64le]),
          jsByte_at _ _ _ _ (100 + ct.length) 6 (by push_cast; try ring)
            hlen100L (by simp [i64le]),
          jsByte_at _ _ _ _ (100 + ct.length) 7 (by push_cast; try ring)
            hlen100L (by simp [i64le])]
      rw [show (i64le t).getD 0 0 = t % 256 from rfl,
          show (i64le t).getD 1 0 = t / 256 % 256 from rfl,
          show (i64le t).getD 2 0 = t / 65536 % 256 from rfl,
          show (i64le t).getD 3 0 = t / 16777216 % 256 from rfl,
          show (i64le t).getD 4 0 = t / 4294967296 % 256 from rfl,
          show (i64le t).getD 5 0 = t / 1099511627776 % 256 from rfl,
          show (i64le t).getD 6 0 = t / 281474976710656 % 256 from rfl,
          show (i64le t).getD 7 0 = t / 72057594037927936 % 256 from rfl]
      rw [show t % 256 + t / 256 % 256 * 256 + t / 65536 % 256 * 65536
          + t / 16777216 % 256 * 16777216 = t by omega]
      rw [show t / 4294967296 % 256 + t / 1099511627776 % 256 * 256
          + t / 281474976710656 % 256 * 65536
          + t / 72057594037927936 % 256 * 16777216 = 0 by omega]
      simp only [toInt32]
      rw [Nat.mod_eq_of_lt (by omega), if_pos (by omega)]
      norm_num
    rw [hsnd2, hrcp2, hcip, hnz2, hts]

/-- Base64 payload of a well-formed `MessageSent` event: discriminator,
32 bytes of 0x01 (sender), 32 bytes of 0x02 (recipient), ct_len 3,
ciphertext 09 09 09, 24 bytes of 0x03 (nonce), timestamp 1700000000. -/
def w3b64 : String :=
  "dEbgTIAcbjcBAQEBAQEBAQEBAQEBAQEBAQEBAQEBAQEBAQEBAQEBAQICAgICAgICAgICAgICAgICAgICAgICAgICAgICAgICAwAAAAkJCQMDAwMDAwMDAwMDAwMDAwMDAwMDAwMDAwDxU2UAAAAA"

set_option maxRecDepth 8000 in
theorem c3_event_parse_witness :
    parseMessageSentEvents [String.mk (marker.data ++ w3b64.data)]
      = [⟨base58Encode (List.replicate 32 1), base58Encode (List.replicate 32 2),
          [9, 9, 9], List.replicate 24 3, (1700000000 : Int), none⟩] := by
  have h := c3_event_parse.2.2 w3b64.data (List.replicate 32 1)
    (List.replicate 32 2) [9, 9, 9] (List.replicate 24 3) 1700000000
    (by decide) (by decide) (by decide) (by decide) (by decide) (by decide)
  simpa using h

/-- A log line whose marker sits mid-line and whose payload is the bare
discriminator with every field missing. -/
def cxLine : String := "x Program data: dEbgTIAcbjc="

/-- The empty rendering returned for missing key bytes. -/
def emptyStr : String := ""

/-- Claim C3 counterexample: `cxLine` does not carry `"Program data: "` as
a prefix (the marker sits mid-line) and its base64 payload is truncated
right after the discriminator, yet `parseMessageSentEvents` emits one
degenerate event for it (empty keys, empty ciphertext and nonce,
timestamp 0), where the claim promises no event from such a line. -/
theorem c3_counterexample :
    marker.data.isPrefixOf cxLine.data = false ∧
    parseMessageSentEvents [cxLine]
      = [⟨emptyStr, emptyStr, [], [], 0, none⟩] := by
  decide

/-! ## Text decoding (`TextDecoder`)

WHATWG UTF-8 decoding with U+FFFD replacement for malformed sequences,
as performed by `new TextDecoder().decode(...)` on the receive paths. -/

def replacementChar : Char := Char.ofNat 65533

def isUtf8Cont (b : Nat) : Bool := 128 ≤ b && b < 192

def utf8DecodeReplaceFuel : Nat → List Nat → List Char
  | _, [] => []
  | 0, _ => []
  | fuel + 1, b :: rest =>
    if b < 128 then Char.ofNat b :: utf8DecodeReplaceFuel fuel rest
    else if 194 ≤ b && b ≤ 223 then
      match rest with
      | [] => [replacementChar]
      | c :: rest2 =>
        if isUtf8Cont c then
          Char.ofNat ((b - 192) * 64 + (c - 128)) :: utf8DecodeReplaceFuel fuel rest2
        else replacementChar :: utf8DecodeReplaceFuel fuel rest
    else if 224 ≤ b && b ≤ 239 then
      match rest with
      | [] => [replacementChar]
      | c :: rest2 =>
        if (if b = 224 then 160 ≤ c && c < 192
            else if b = 237 then 128 ≤ c && c < 160
            else isUtf8Cont c) then
          match rest2 with
          | [] => [replacementChar]
          | d :: rest3 =>
            if isUtf8Cont d then
              Char.ofNat ((b - 224) * 4096 + (c - 128) * 64 + (d - 128))
                :: utf8DecodeReplaceFuel fuel rest3
            else replacementChar :: utf8DecodeReplaceFuel fuel rest2
        else replacementChar :: utf8DecodeReplaceFuel fuel rest
    else if 240 ≤ b && b ≤ 244 then
      match rest with
      | [] => [replacementChar]
      | c :: rest2 =>
        if (if b = 240 then 144 ≤ c && c < 192
            else if b = 244 then 128 ≤ c && c < 144
            else isUtf8Cont c) then
          match rest2 with
          | [] => [replacementChar]
          | d :: rest3 =>
            if isUtf8Cont d then
              match rest3 with
              | [] => [replacementChar]
              | e :: rest4 =>
                if isUtf8Cont e then
                  Char.ofNat ((b - 240) * 262144 + (c - 128) * 4096
                    + (d - 128) * 64 + (e - 128)) :: utf8DecodeReplaceFuel fuel rest4
                else replacementChar :: utf8DecodeReplaceFuel fuel rest3
            else replacementChar :: utf8DecodeReplaceFuel fuel rest2
        else replacementChar :: utf8DecodeReplaceFuel fuel rest
    else replacementChar :: utf8DecodeReplaceFuel fuel rest

/-- WHATWG UTF-8 decoding with replacement; the fuel, set to the input
length, strictly exceeds the bytes consumed before every recursive call. -/
def utf8DecodeReplace (bs : List Nat) : List Char :=
  utf8DecodeReplaceFuel bs.length bs

/-- `new TextDecoder().decode(bytes)` as a string. -/
def textDecode (bs : List Nat) : String := String.mk (utf8DecodeReplace bs)

/-! ## Crypto wrappers (`src/sdk/src/crypto.ts`)

`nacl.box.open` and the two `ed2curve` conversions are external
primitives: they enter as oracle parameters `boxOpen`, `convPub` (which
can return null) and `convSec` (total).  The wrappers' own control flow —
what is thrown and what is returned as null — is the code under
verification, for every behaviour of the oracles. -/

def convPubFailMsg : String := "Failed to convert sender public key to x25519"

def decryptFailMsg : String :=
  "Decryption failed — invalid ciphertext or wrong keys"

/-- `decrypt(ciphertext, nonce, senderPublicKey, recipientSecretKey)`:
converts the keys, opens the box and UTF-8-decodes; a failed sender-key
conversion or a failed authentication is thrown (`Except.error`). -/
def decrypt (convPub : List Nat → Option (List Nat))
    (convSec : List Nat → List Nat)
    (boxOpen : List Nat → List Nat → List Nat → List Nat → Option (List Nat))
    (ciphertext nonce senderPublicKey recipientSecretKey : List Nat) :
    Except String String :=
  let recipientX := convSec recipientSecretKey
  match convPub senderPublicKey with
  | none => .error convPubFailMsg
  | some senderX =>
    match boxOpen ciphertext nonce senderX recipientX with
    | none => .error decryptFailMsg
    | some plaintext => .ok (textDecode plaintext)

/-- `decryptRaw(...)`: same pipeline, but conversion failure and
authentication failure both yield null instead of throwing. -/
def decryptRaw (convPub : List Nat → Option (List Nat))
    (convSec : List Nat → List Nat)
    (boxOpen : List Nat → List Nat → List Nat → List Nat → Option (List Nat))
    (ciphertext nonce senderPublicKey recipientSecretKey : List Nat) :
    Option (List Nat) :=
  match convPub senderPublicKey with
  | none => none
  | some senderX =>
    boxOpen ciphertext nonce senderX (convSec recipientSecretKey)

/-- Claim C7 (amended): on the receive paths the SDK decrypts with
`decryptRaw`, which returns null (never throws) both when the sender key
conversion fails and when authentication fails, and returns the box
contents otherwise; the string-returning `decrypt` throws in exactly the
cases where `decryptRaw` returns null. -/
theorem c7_decrypt_totality
    (convPub : List Nat → Option (List Nat))
    (convSec : List Nat → List Nat)
    (boxOpen : List Nat → List Nat → List Nat → List Nat → Option (List Nat))
    (ct nonce spk rsk : List Nat) :
    (convPub spk = none →
      decryptRaw convPub convSec boxOpen ct nonce spk rsk = none) ∧
    (∀ sx, convPub spk = some sx →
      decryptRaw convPub convSec boxOpen ct nonce spk rsk
        = boxOpen ct nonce sx (convSec rsk)) ∧
    ((∃ e, decrypt convPub convSec boxOpen ct nonce spk rsk = .error e) ↔
      decryptRaw convPub convSec boxOpen ct nonce spk rsk = none) := by
  refine ⟨fun h => by rw [decryptRaw, h], fun sx h => by rw [decryptRaw, h],
    ?_⟩
  cases h : convPub spk with
  | none => simp [decrypt, decryptRaw, h]
  | some sx =>
    cases h2 : boxOpen ct nonce sx (convSec rsk) with
    | none => simp [decrypt, decryptRaw, h, h2]
    | some pt => simp [decrypt, decryptRaw, h, h2]

theorem c7_decrypt_totality_witness :
    decryptRaw (fun k => some k) (fun k => k) (fun _ _ _ _ => none)
      [1] [2] [3] [4] = none ∧
    (∃ e, decrypt (fun k => some k) (fun k => k) (fun _ _ _ _ => none)
      [1] [2] [3] [4] = .error e) := by
  have h := c7_decrypt_totality (fun k => some k) (fun k => k)
    (fun _ _ _ _ => none) [1] [2] [3] [4]
  have hr : decryptRaw (fun k => some k) (fun k => k) (fun _ _ _ _ => none)
      [1] [2] [3] [4] = none := h.2.1 [3] rfl
  exact ⟨hr, h.2.2.mpr hr⟩

/-- Claim C7 counterexample: when authentication fails (the box-open
primitive returns null), `decrypt` throws rather than returning null. -/
theorem c7_counterexample :
    decrypt (fun k => some k) (fun k => k) (fun _ _ _ _ => none) [] [] [] []
      = .error decryptFailMsg := rfl

/-! ## Registry lookup (`registry.ts`)

`lookupEncryptionKey` derives the registry PDA (outside the try block),
fetches the account inside a try/catch and renders bytes 40..72 of the
account data in base58.  The RPC call is an oracle: `.error e` models a
thrown RPC error, `.ok none` a missing account or missing data field,
`.ok (some bytes)` the base64-decoded account data. -/

def lookupEncryptionKey {ε : Type}
    (getAccountInfo : Except ε (Option (List Nat))) : Option String :=
  match getAccountInfo with
  | .error _ => none
  | .ok none => none
  | .ok (some raw) => some (base58Encode (jsSubarray raw 40 72))

/-- `raw.subarray(40, 72)` on data of at most 72 bytes is `raw.slice(40)`. -/
theorem jsSubarray_40_72 (d : List Nat) (hle : d.length ≤ 72) :
    jsSubarray d 40 72 = d.drop 40 := by
  simp only [jsSubarray]
  rw [if_neg (by omega), if_neg (by omega)]
  rcases le_or_lt d.length 40 with h40 | h40
  · rw [show min (40 : Int) (d.length : Int) = (d.length : Int) by omega,
      show min (72 : Int) (d.length : Int) = (d.length : Int) by omega]
    simp only [Int.toNat_natCast]
    rw [List.take_of_length_le (by omega),
      List.drop_eq_nil_of_le (by omega),
      List.drop_eq_nil_of_le (by omega)]
  · rw [show min (40 : Int) (d.length : Int) = (40 : Int) by omega,
      show min (72 : Int) (d.length : Int) = (d.length : Int) by omega]
    simp only [Int.toNat_natCast, Int.toNat_ofNat]
    rw [List.take_of_length_le (by omega),
      show Int.toNat 40 = 40 from rfl]

/-- Claim C8: `lookupEncryptionKey` returns none when the registry account
does not exist, converts every RPC error into none instead of throwing,
and otherwise — for account data of at least 72 bytes — returns the
base58 encoding of the 32-byte encryption key at offsets 40..72. -/
theorem c8_lookup_absence {ε : Type} (e : ε) (d : List Nat) :
    (lookupEncryptionKey (ε := ε) (.error e) = none) ∧
    (lookupEncryptionKey (ε := ε) (.ok none) = none) ∧
    (72 ≤ d.length →
      lookupEncryptionKey (ε := ε) (.ok (some d))
        = some (base58Encode ((d.take 72).drop 40)) ∧
      ((d.take 72).drop 40).length = 32) := by
  refine ⟨rfl, rfl, fun h72 => ⟨?_, ?_⟩⟩
  · rw [lookupEncryptionKey]
    have hs := jsSubarray_nat d 40 72 (by omega) h72
    rw [show ((40 : Nat) : Int) = (40 : Int) by norm_num,
        show ((72 : Nat) : Int) = (72 : Int) by norm_num] at hs
    rw [hs]
  · rw [List.length_drop, List.length_take]
    omega

theorem c8_lookup_absence_witness :
    lookupEncryptionKey (ε := Unit) (.error ()) = none ∧
    lookupEncryptionKey (ε := Unit) (.ok none) = none ∧
    lookupEncryptionKey (ε := Unit) (.ok (some (List.replicate 72 5)))
      = some (base58Encode (((List.replicate 72 5).take 72).drop 40)) := by
  have h := c8_lookup_absence (ε := Unit) () (List.replicate 72 5)
  exact ⟨h.1, h.2.1, (h.2.2 (by decide)).1⟩

/-- Claim C10: `lookupEncryptionKey` performs no length validation: for an
existing account whose data is non-empty but shorter than 72 bytes it
returns the base58 encoding of the bytes from offset 40 to the end —
fewer than 32 bytes, and the empty string when the data has at most 40
bytes — rather than none or an error. -/
theorem c10_lookup_short_data {ε : Type} (d : List Nat) (h0 : 0 < d.length)
    (hlt : d.length < 72) :
    lookupEncryptionKey (ε := ε) (.ok (some d))
      = some (base58Encode (d.drop 40)) ∧
    (d.drop 40).length = d.length - 40 ∧
    (d.length ≤ 40 → lookupEncryptionKey (ε := ε) (.ok (some d))
      = some emptyStr) := by
  have hsub : jsSubarray d 40 72 = d.drop 40 := jsSubarray_40_72 d (by omega)
  refine ⟨?_, List.length_drop .., fun h40 => ?_⟩
  · rw [lookupEncryptionKey, hsub]
  · rw [lookupEncryptionKey, hsub, List.drop_eq_nil_of_le h40]
    rfl

theorem c10_lookup_short_data_witness :
    lookupEncryptionKey (ε := Unit) (.ok (some (List.replicate 50 7)))
      = some (base58Encode (List.replicate 10 7)) ∧
    lookupEncryptionKey (ε := Unit) (.ok (some [1, 2, 3]))
      = some emptyStr := by
  have h1 := c10_lookup_short_data (ε := Unit) (List.replicate 50 7)
    (by decide) (by decide)
  have h2 := c10_lookup_short_data (ε := Unit) [1, 2, 3]
    (by decide) (by decide)
  constructor
  · rw [h1.1]
    rfl
  · exact h2.2.2 (by decide)

/-! ## The since filter of `read` (messenger, history path) -/

/-- One entry of the signature list accumulated by `read`. -/
structure SigInfo where
  signature : String
  blockTime : Option Int
deriving DecidableEq, Repr

/-- The filter `read` applies when `since > 0`:
`allSignatures.filter(s => s.blockTime && s.blockTime >= since)`; a null
or zero blockTime is falsy. -/
def readSinceFilter (since : Int) (sigs : List SigInfo) : List SigInfo :=
  if 0 < since then
    sigs.filter (fun s => match s.blockTime with
      | none => false
      | some t => decide (t ≠ 0) && decide (since ≤ t))
  else sigs

/-- Claim C9: whenever `since > 0`, the signature filter of `read` keeps
exactly the entries that carry a block time at least `since`; entries with
an absent block time are discarded along with those strictly below
`since`, so a transaction without a reported block time never contributes
to a since-filtered read. -/
theorem c9_since_filter (since : Int) (hs : 0 < since) (s : SigInfo)
    (sigs : List SigInfo) :
    s ∈ readSinceFilter since sigs ↔
      s ∈ sigs ∧ ∃ t, s.blockTime = some t ∧ since ≤ t := by
  rw [readSinceFilter, if_pos hs, List.mem_filter]
  constructor
  · rintro ⟨hmem, hcond⟩
    refine ⟨hmem, ?_⟩
    cases h : s.blockTime with
    | none => rw [h] at hcond; simp at hcond
    | some t =>
      rw [h] at hcond
      simp at hcond
      exact ⟨t, rfl, hcond.2⟩
  · rintro ⟨hmem, t, ht, hle⟩
    refine ⟨hmem, ?_⟩
    rw [ht]
    simp
    exact ⟨by omega, hle⟩

theorem c9_since_filter_witness :
    (⟨emptyStr, some 10⟩ : SigInfo)
      ∈ readSinceFilter 10 [⟨emptyStr, none⟩, ⟨emptyStr, some 10⟩] ∧
    (⟨emptyStr, none⟩ : SigInfo)
      ∉ readSinceFilter 10 [⟨emptyStr, none⟩, ⟨emptyStr, some 10⟩] := by
  constructor
  · exact (c9_since_filter 10 (by omega) _ _).mpr
      ⟨by simp, 10, rfl, by omega⟩
  · intro hmem
    obtain ⟨-, t, ht, -⟩ := (c9_since_filter 10 (by omega) _ _).mp hmem
    simp at ht

/-! ## Sequential chunk submission (`SolanaMessenger.send`)

For each encoded chunk, `send` encrypts it, builds the `send_message`
instruction, signs and submits it, pushing the returned signature; an
exception from any submission leaves the loop and propagates to the
caller unchanged.  The per-chunk encrypt-build-sign-submit pipeline is an
oracle `submit` from the chunk index to a signature or a thrown error;
the trace records which chunk indices were submitted. -/

def sendLoop {ε σ : Type} (submit : Nat → Except ε σ) :
    List (List Nat) → Nat → List Nat × Except ε (List σ)
  | [], _ => ([], .ok [])
  | _ :: rest, i =>
    match submit i with
    | .error e => ([i], .error e)
    | .ok s =>
      let r := sendLoop submit rest (i + 1)
      (i :: r.1, r.2.map (fun sigs => s :: sigs))

/-- `send(recipient, message)` reduced to its submission loop: encode the
message and submit the chunks sequentially from index 0. -/
def send {ε σ : Type} (submit : Nat → Except ε σ) (mid : List Nat)
    (message : String) : List Nat × Except ε (List σ) :=
  sendLoop submit (encodeMessage mid message) 0

theorem sendLoop_all_ok {ε σ : Type} (submit : Nat → Except ε σ)
    (sig : Nat → σ) : ∀ (chunks : List (List Nat)) (i : Nat),
    (∀ j, j < chunks.length → submit (i + j) = .ok (sig (i + j))) →
    sendLoop submit chunks i
      = (List.range' i chunks.length,
         .ok ((List.range' i chunks.length).map sig)) := by
  intro chunks
  induction chunks with
  | nil => intro i _; rfl
  | cons c rest ih =>
    intro i hok
    have h0 : submit i = .ok (sig i) := by
      have := hok 0 (by simp)
      simpa using this
    rw [sendLoop, h0]
    rw [ih (i + 1) (fun j hj => by
      have := hok (j + 1) (by simp; omega)
      rwa [show i + (j + 1) = i + 1 + j by omega] at this)]
    simp only [List.length_cons, List.range'_succ]
    simp [Except.map]

theorem sendLoop_fails_at {ε σ : Type} (submit : Nat → Except ε σ)
    (sig : Nat → σ) (e : ε) : ∀ (chunks : List (List Nat)) (i k : Nat),
    k < chunks.length → submit (i + k) = .error e →
    (∀ j, j < k → submit (i + j) = .ok (sig (i + j))) →
    sendLoop submit chunks i = (List.range' i (k + 1), .error e) := by
  intro chunks
  induction chunks with
  | nil => intro i k hk _ _; simp at hk
  | cons c rest ih =>
    intro i k hk herr hok
    cases k with
    | zero =>
      rw [sendLoop, show submit i = .error e by simpa using herr]
      rfl
    | succ k0 =>
      have h0 : submit i = .ok (sig i) := by
        have := hok 0 (by omega)
        simpa using this
      rw [sendLoop, h0]
      rw [ih (i + 1) k0 (by simpa using hk)
        (by rwa [show i + 1 + k0 = i + (k0 + 1) by omega])
        (fun j hj => by
          have := hok (j + 1) (by omega)
          rwa [show i + (j + 1) = i + 1 + j by omega] at this)]
      simp only [List.range'_succ]
      simp [Except.map]

/-- Claim C6 (amended): `send` submits the encoded chunks sequentially;
on success it returns one signature per chunk, ordered by the original
chunk index.  When submitting chunk k fails, chunks after k are never
submitted (the trace stops at k) and the submission error reaches the
caller unchanged — the signatures of the already-landed chunks and the
index of the failed chunk are not attached to it. -/
theorem c6_send_partial_failure {ε σ : Type} (submit : Nat → Except ε σ)
    (mid : List Nat) (message : String) (sig : Nat → σ) (e : ε) :
    ((∀ i, i < (encodeMessage mid message).length → submit i = .ok (sig i)) →
      send submit mid message
        = (List.range (encodeMessage mid message).length,
           .ok ((List.range (encodeMessage mid message).length).map sig))) ∧
    (∀ k, k < (encodeMessage mid message).length → submit k = .error e →
      (∀ i, i < k → submit i = .ok (sig i)) →
      send submit mid message = (List.range (k + 1), .error e)) := by
  constructor
  · intro hok
    rw [send, sendLoop_all_ok submit sig _ 0 (fun j hj => by
      simpa using hok j hj)]
    rw [List.range_eq_range']
  · intro k hk herr hok
    rw [send, sendLoop_fails_at submit sig e _ 0 k hk (by simpa using herr)
      (fun j hj => by simpa using hok j hj)]
    rw [List.range_eq_range']

theorem c6_send_partial_failure_witness :
    send (fun i => if i = 0 then Except.ok gmS else Except.error emptyStr)
        c1Mid aLong = ([0, 1], .error emptyStr) := by
  have hl : (utf8Encode aLong).length = 662 := by
    rw [show utf8Encode aLong
      = utf8Encode (String.mk (List.replicate 662 (Char.ofNat 97)))
      from rfl, utf8Encode_replicate_a, List.length_replicate]
  have hch := encodeMessage_chunked c1Mid aLong 2 (by decide)
    (by rw [MAX_PAYLOAD_SIZE, hl]; omega) (by rw [hl, MAX_PAYLOAD_SIZE])
  have hlen : (encodeMessage c1Mid aLong).length = 2 := by rw [hch]; simp
  have h := (c6_send_partial_failure
    (fun i => if i = 0 then Except.ok gmS else Except.error emptyStr)
    c1Mid aLong (fun _ => gmS) emptyStr).2 1 (by omega) rfl
    (fun i hi => by interval_cases i; rfl)
  simpa using h

/-- Two submission oracles for the counterexample: under the first, chunk
0 fails outright; under the second, chunk 0 lands with signature `s0` and
chunk 1 fails with the identical error value. -/
def boomMsg : String := "boom"

def sigS0 : String := "s0"

def subA : Nat → Except String String := fun _ => .error boomMsg

def subB : Nat → Except String String := fun i =>
  if i = 0 then .ok sigS0 else .error boomMsg

/-- Claim C6 counterexample: the two runs land different signature lists
([] and [s0]) and fail at different chunk indices (0 and 1), yet surface
the identical error value, so the surfaced error cannot carry the list of
landed signatures together with the failed index. -/
theorem c6_counterexample :
    send subA c1Mid aLong = ([0], .error boomMsg) ∧
    send subB c1Mid aLong = ([0, 1], .error boomMsg) ∧
    ¬ ∃ f : String → List String × Nat,
      f boomMsg = ([], 0) ∧ f boomMsg = ([sigS0], 1) := by
  have hl : (utf8Encode aLong).length = 662 := by
    rw [show utf8Encode aLong
      = utf8Encode (String.mk (List.replicate 662 (Char.ofNat 97)))
      from rfl, utf8Encode_replicate_a, List.length_replicate]
  have hch := encodeMessage_chunked c1Mid aLong 2 (by decide)
    (by rw [MAX_PAYLOAD_SIZE, hl]; omega) (by rw [hl, MAX_PAYLOAD_SIZE])
  refine ⟨?_, ?_, ?_⟩
  · rw [send, hch]
    rw [show List.range 2 = [0, 1] from rfl]
    simp [sendLoop, subA]
  · rw [send, hch]
    rw [show List.range 2 = [0, 1] from rfl]
    simp [sendLoop, subB, Except.map]
  · rintro ⟨f, h1, h2⟩
    rw [h1] at h2
    simp [sigS0] at h2

/-! ## Message reassembly (messenger `read` and `listen` paths)

Both receive paths decrypt each event with `decryptToBytes` (the
`decryptRaw` pipeline tried with the local encryption key and then the
identity key) and decode the resulting frame.  That per-event stage
enters as an oracle `dec` from events to raw frame bytes (`none` models a
decryption failure).  `reassembleMessages`, the batch stage of `read`,
collects standalone messages and groups chunked frames in a JavaScript
`Map` (insertion-ordered) keyed by `hexEncode(messageId)`; `listen` keeps
the same keying in its live `chunkBuffer`. -/

/-- `Message` of `types.ts`. -/
structure Message where
  sender : String
  recipient : String
  text : String
  timestamp : Int
  messageId : List Nat
  txSignatures : List String
deriving DecidableEq, Repr

/-- A decoded frame paired with its event, the element type of the
read-path chunk groups. -/
structure ChunkRecord where
  decoded : DecodedMessage
  event : MessageSentEvent
deriving DecidableEq, Repr

/-- Insertion-ordered map push (JavaScript `Map` semantics): append to
the bucket when the key exists, otherwise append a new bucket at the
end. -/
def mapPush (k : String) (r : ChunkRecord) :
    List (String × List ChunkRecord) → List (String × List ChunkRecord)
  | [] => [(k, [r])]
  | (k0, rs) :: rest =>
    if k0 = k then (k0, rs ++ [r]) :: rest
    else (k0, rs) :: mapPush k r rest

/-- The `Message` pushed for a `totalChunks === 1` frame. -/
def standaloneMessage (d : DecodedMessage) (e : MessageSentEvent) : Message :=
  { sender := e.sender, recipient := e.recipient,
    text := textDecode d.payload, timestamp := e.timestamp,
    messageId := d.messageId,
    txSignatures := [e.txSignature.getD emptyStr] }

/-- The first loop of `reassembleMessages`: walk the events, pushing
standalone messages and grouping chunked records by hex message id. -/
def reassembleScan (dec : MessageSentEvent → Option (List Nat))
    (acc : List Message × List (String × List ChunkRecord)) :
    List MessageSentEvent → List Message × List (String × List ChunkRecord)
  | [] => acc
  | e :: rest =>
    match dec e with
    | none => reassembleScan dec acc rest
    | some raw =>
      match decodeMessage raw with
      | .error _ => reassembleScan dec acc rest
      | .ok d =>
        if d.totalChunks = 1 then
          reassembleScan dec (acc.1 ++ [standaloneMessage d e], acc.2) rest
        else
          reassembleScan dec
            (acc.1, mapPush (hexEncode d.messageId) ⟨d, e⟩ acc.2) rest

/-- `chunks.sort((a, b) => a.decoded.chunkIndex - b.decoded.chunkIndex)`:
a stable ascending sort by chunk index. -/
def jsSortByChunkIndex (rs : List ChunkRecord) : List ChunkRecord :=
  List.insertionSort
    (fun a b => a.decoded.chunkIndex ≤ b.decoded.chunkIndex) rs

/-- The second loop of `reassembleMessages`, per bucket: sort by chunk
index, require the record count to equal the total_chunks of the lowest
chunk, and concatenate the payloads.  A bucket is never empty; `none` on
`[]` stands for the impossible read of `chunks[0]`. -/
def assembleGroupMessage (rs : List ChunkRecord) : Option Message :=
  match jsSortByChunkIndex rs with
  | [] => none
  | r0 :: tl =>
    if (r0 :: tl).length = r0.decoded.totalChunks then
      some { sender := r0.event.sender, recipient := r0.event.recipient,
             text := textDecode ((r0 :: tl).flatMap
               (fun c => c.decoded.payload)),
             timestamp := r0.event.timestamp,
             messageId := r0.decoded.messageId,
             txSignatures := (r0 :: tl).map
               (fun c => c.event.txSignature.getD emptyStr) }
    else none

/-- `messages.sort((a, b) => a.timestamp - b.timestamp)`: a stable
ascending sort by timestamp. -/
def jsSortByTimestamp (ms : List Message) : List Message :=
  List.insertionSort (fun a b => a.timestamp ≤ b.timestamp) ms

/-- `reassembleMessages(events)` of the read path. -/
def reassembleMessages (dec : MessageSentEvent → Option (List Nat))
    (events : List MessageSentEvent) : List Message :=
  let scanned := reassembleScan dec ([], []) events
  jsSortByTimestamp (scanned.1
    ++ scanned.2.filterMap (fun kv => assembleGroupMessage kv.2))

/-! ### Listen-path chunk buffer -/

/-- One `chunkBuffer` entry of `listen`: the buffered events and the
total_chunks recorded when the entry was created. -/
structure ListenEntry where
  events : List MessageSentEvent
  totalChunks : Nat
deriving DecidableEq, Repr

/-- Create-if-absent (with the current frame's total_chunks) and push. -/
def bufPush (k : String) (e : MessageSentEvent) (tc : Nat) :
    List (String × ListenEntry) → List (String × ListenEntry)
  | [] => [(k, ⟨[e], tc⟩)]
  | (k0, ent) :: rest =>
    if k0 = k then (k0, ⟨ent.events ++ [e], ent.totalChunks⟩) :: rest
    else (k0, ent) :: bufPush k e tc rest

def bufGet (k : String) :
    List (String × ListenEntry) → Option ListenEntry
  | [] => none
  | (k0, ent) :: rest => if k0 = k then some ent else bufGet k rest

def bufDelete (k : String) :
    List (String × ListenEntry) → List (String × ListenEntry)
  | [] => []
  | (k0, ent) :: rest =>
    if k0 = k then rest else (k0, ent) :: bufDelete k rest

/-- The decrypt-decode pass of `assembleChunks`: decryption failures are
filtered out, but a decode exception propagates (`Except.error`). -/
def collectRecords (dec : MessageSentEvent → Option (List Nat)) :
    List MessageSentEvent → Except Unit (List ChunkRecord)
  | [] => .ok []
  | e :: rest =>
    match dec e with
    | none => collectRecords dec rest
    | some raw =>
      match decodeMessage raw with
      | .error _ => .error ()
      | .ok d => (collectRecords dec rest).map (fun tl => ⟨d, e⟩ :: tl)

/-- `assembleChunks(events)` of `listen`: re-decrypt and decode the
buffered events, sort by chunk index and concatenate; null when nothing
decrypts; an exception escapes to the caller's catch. -/
def assembleChunks (dec : MessageSentEvent → Option (List Nat))
    (events : List MessageSentEvent) : Except Unit (Option Message) :=
  match collectRecords dec events with
  | .error _ => .error ()
  | .ok decoded =>
    match jsSortByChunkIndex decoded with
    | [] => .ok none
    | r0 :: tl =>
      .ok (some { sender := r0.event.sender
                  recipient := r0.event.recipient
                  text := textDecode ((r0 :: tl).flatMap
                    (fun c => c.decoded.payload))
                  timestamp := r0.event.timestamp
                  messageId := r0.decoded.messageId
                  txSignatures := (r0 :: tl).map
                    (fun c => c.event.txSignature.getD emptyStr) })

/-- One iteration of `listen`'s per-event pipeline, on the chunk buffer:
returns the updated buffer and the messages delivered to the callback
(at most one).  The surrounding try/catch swallows decode exceptions, and
an exception inside `assembleChunks` also skips the buffer eviction. -/
def listenStep (dec : MessageSentEvent → Option (List Nat))
    (st : List (String × ListenEntry)) (e : MessageSentEvent) :
    List (String × ListenEntry) × List Message :=
  match dec e with
  | none => (st, [])
  | some raw =>
    match decodeMessage raw with
    | .error _ => (st, [])
    | .ok d =>
      if d.totalChunks = 1 then (st, [standaloneMessage d e])
      else
        let k := hexEncode d.messageId
        let st1 := bufPush k e d.totalChunks st
        match bufGet k st1 with
        | none => (st1, [])
        | some ent =>
          if ent.events.length = ent.totalChunks then
            match assembleChunks dec ent.events with
            | .error _ => (st1, [])
            | .ok none => (bufDelete k st1, [])
            | .ok (some m) => (bufDelete k st1, [m])
          else (st1, [])

/-! ### Declarative description of the read-path grouping

The fold with the insertion-ordered map above is proved equal to this
filter-based description: records in arrival order, buckets keyed by hex
message id in first-appearance order, each bucket the subsequence of
records with that key. -/

def recordKey (r : ChunkRecord) : String := hexEncode r.decoded.messageId

/-- The decrypt-decode outcome for one event on the read path. -/
def recordOf (dec : MessageSentEvent → Option (List Nat))
    (e : MessageSentEvent) : Option ChunkRecord :=
  match dec e with
  | none => none
  | some raw =>
    match decodeMessage raw with
    | .error _ => none
    | .ok d => some ⟨d, e⟩

def readRecords (dec : MessageSentEvent → Option (List Nat))
    (events : List MessageSentEvent) : List ChunkRecord :=
  events.filterMap (recordOf dec)

def standaloneSpec (dec : MessageSentEvent → Option (List Nat))
    (events : List MessageSentEvent) : List Message :=
  ((readRecords dec events).filter
    (fun r => r.decoded.totalChunks == 1)).map
    (fun r => standaloneMessage r.decoded r.event)

def chunkedRecords (dec : MessageSentEvent → Option (List Nat))
    (events : List MessageSentEvent) : List ChunkRecord :=
  (readRecords dec events).filter (fun r => !(r.decoded.totalChunks == 1))

/-- First-occurrence deduplication, preserving order. -/
def dedupFirst : List String → List String
  | [] => []
  | k :: rest => k :: (dedupFirst rest).filter (fun x => !(x == k))

/-- The insertion-ordered map described declaratively. -/
def groupsSpec (rs : List ChunkRecord) : List (String × List ChunkRecord) :=
  (dedupFirst (rs.map recordKey)).map
    (fun k => (k, rs.filter (fun r => recordKey r == k)))

def reassembleSpec (dec : MessageSentEvent → Option (List Nat))
    (events : List MessageSentEvent) : List Message :=
  jsSortByTimestamp (standaloneSpec dec events
    ++ (groupsSpec (chunkedRecords dec events)).filterMap
        (fun kv => assembleGroupMessage kv.2))

def groupFold (rs : List ChunkRecord)
    (m : List (String × List ChunkRecord)) :
    List (String × List ChunkRecord) :=
  rs.foldl (fun m r => mapPush (recordKey r) r m) m

theorem dedupFirst_mem (a : String) : ∀ xs : List String,
    a ∈ dedupFirst xs ↔ a ∈ xs := by
  intro xs
  induction xs with
  | nil => simp [dedupFirst]
  | cons k rest ih =>
    rw [dedupFirst]
    by_cases hak : a = k
    · subst hak
      simp
    · simp only [List.mem_cons, List.mem_filter]
      constructor
      · rintro (h | ⟨h, -⟩)
        · exact Or.inl h
        · exact Or.inr (ih.mp h)
      · rintro (h | h)
        · exact Or.inl h
        · exact Or.inr ⟨ih.mpr h, by simp [hak]⟩

theorem dedupFirst_nodup : ∀ xs : List String, (dedupFirst xs).Nodup := by
  intro xs
  induction xs with
  | nil => exact List.nodup_nil
  | cons k rest ih =>
    rw [dedupFirst]
    refine List.Nodup.cons ?_ (List.Nodup.filter _ ih)
    intro hmem
    have := (List.mem_filter.mp hmem).2
    simp at this

theorem dedupFirst_append_one (a : String) : ∀ xs : List String,
    dedupFirst (xs ++ [a])
      = if a ∈ xs then dedupFirst xs else dedupFirst xs ++ [a] := by
  intro xs
  induction xs with
  | nil => simp [dedupFirst]
  | cons x rest ih =>
    rw [List.cons_append, dedupFirst, ih, dedupFirst]
    by_cases hmem : a ∈ rest
    · rw [if_pos hmem, if_pos (by simp [hmem])]
    · rw [if_neg hmem]
      by_cases hax : a = x
      · subst hax
        rw [if_pos (by simp)]
        rw [List.filter_append]
        simp
      · rw [if_neg (by simp [hax, hmem])]
        rw [List.filter_append]
        simp [hax]

theorem mapPush_absent (k : String) (r : ChunkRecord) :
    ∀ m : List (String × List ChunkRecord),
    k ∉ m.map Prod.fst → mapPush k r m = m ++ [(k, [r])] := by
  intro m
  induction m with
  | nil => intro _; rfl
  | cons kv rest ih =>
    intro hk
    obtain ⟨k0, rs⟩ := kv
    rw [List.map_cons] at hk
    have h1 : k0 ≠ k := fun h => hk (by simp [h])
    have h2 : k ∉ rest.map Prod.fst := fun h => hk (by simp [h])
    rw [mapPush, if_neg h1, ih h2]
    rfl

theorem mapPush_present (k : String) (r : ChunkRecord)
    (f : String → List ChunkRecord) : ∀ ks : List String, ks.Nodup →
    k ∈ ks →
    mapPush k r (ks.map (fun x => (x, f x)))
      = ks.map (fun x => (x, if x = k then f x ++ [r] else f x)) := by
  intro ks
  induction ks with
  | nil => intro _ h; simp at h
  | cons k0 rest ih =>
    intro hnd hk
    rw [List.map_cons, List.map_cons, mapPush]
    by_cases h0 : k0 = k
    · subst h0
      rw [if_pos rfl, if_pos rfl]
      congr 1
      refine (List.map_congr_left ?_).symm
      intro x hx
      rw [if_neg ?_]
      intro hxk
      subst hxk
      exact (List.nodup_cons.mp hnd).1 hx
    · rw [if_neg h0, if_neg h0]
      rw [ih (List.nodup_cons.mp hnd).2 (by
        rcases List.mem_cons.mp hk with h | h
        · exact absurd h.symm h0
        · exact h)]

theorem filter_key_append_one (done : List ChunkRecord) (r : ChunkRecord)
    (k : String) :
    (done ++ [r]).filter (fun x => recordKey x == k)
      = done.filter (fun x => recordKey x == k)
        ++ (if recordKey r = k then [r] else []) := by
  rw [List.filter_append]
  congr 1
  by_cases h : recordKey r = k <;> simp [h]

theorem filter_key_absent (done : List ChunkRecord) (k : String)
    (h : k ∉ done.map recordKey) :
    done.filter (fun x => recordKey x == k) = [] := by
  rw [List.filter_eq_nil_iff]
  intro a ha
  simp only [beq_iff_eq]
  intro hk
  exact h (hk ▸ List.mem_map_of_mem recordKey ha)

theorem groupsSpec_keys (done : List ChunkRecord) :
    (groupsSpec done).map Prod.fst = dedupFirst (done.map recordKey) := by
  rw [groupsSpec, List.map_map]
  simp [Function.comp_def]

theorem mapPush_groupsSpec (done : List ChunkRecord) (r : ChunkRecord) :
    mapPush (recordKey r) r (groupsSpec done) = groupsSpec (done ++ [r]) := by
  by_cases hmem : recordKey r ∈ done.map recordKey
  · rw [groupsSpec, mapPush_present (recordKey r) r _ _
      (dedupFirst_nodup _) ((dedupFirst_mem _ _).mpr hmem)]
    rw [groupsSpec, List.map_append, List.map_singleton,
      dedupFirst_append_one, if_pos hmem]
    refine List.map_congr_left ?_
    intro k hk
    rw [filter_key_append_one]
    by_cases hkr : k = recordKey r
    · rw [if_pos hkr, if_pos (by rw [hkr]), hkr]
    · rw [if_neg hkr, if_neg (fun h => hkr h.symm), List.append_nil]
  · have habs : recordKey r ∉ (groupsSpec done).map Prod.fst := by
      rw [groupsSpec_keys]
      intro h
      exact hmem ((dedupFirst_mem _ _).mp h)
    rw [mapPush_absent _ _ _ habs]
    rw [groupsSpec, groupsSpec, List.map_append, List.map_singleton,
      dedupFirst_append_one, if_neg hmem, List.map_append]
    congr 1
    · refine List.map_congr_left ?_
      intro k hk
      have hkne : k ≠ recordKey r := by
        intro hkr
        exact hmem (hkr ▸ (dedupFirst_mem _ _).mp hk)
      rw [filter_key_append_one, if_neg (fun h => hkne h.symm),
        List.append_nil]
    · rw [List.map_singleton]
      rw [filter_key_append_one, if_pos rfl, filter_key_absent _ _ hmem]
      rfl

theorem groupFold_canon : ∀ (rs done : List ChunkRecord),
    groupFold rs (groupsSpec done) = groupsSpec (done ++ rs) := by
  intro rs
  induction rs with
  | nil => intro done; simp [groupFold]
  | cons r rest ih =>
    intro done
    rw [groupFold, List.foldl_cons, mapPush_groupsSpec]
    have := ih (done ++ [r])
    rw [groupFold] at this
    rw [this]
    congr 1
    simp

theorem reassembleScan_eq (dec : MessageSentEvent → Option (List Nat)) :
    ∀ (events : List MessageSentEvent) (s : List Message)
      (g : List (String × List ChunkRecord)),
    reassembleScan dec (s, g) events
      = (s ++ standaloneSpec dec events,
         groupFold (chunkedRecords dec events) g) := by
  intro events
  induction events with
  | nil =>
    intro s g
    simp [reassembleScan, standaloneSpec, readRecords, chunkedRecords,
      groupFold]
  | cons e rest ih =>
    intro s g
    cases hdec : dec e with
    | none =>
      have hrec : recordOf dec e = none := by
        simp only [recordOf, hdec]
      simp only [reassembleScan, hdec]
      rw [ih]
      simp only [standaloneSpec, chunkedRecords, readRecords,
        List.filterMap_cons, hrec]
    | some raw =>
      cases hdm : decodeMessage raw with
      | error err =>
        have hrec : recordOf dec e = none := by
          simp only [recordOf, hdec, hdm]
        simp only [reassembleScan, hdec, hdm]
        rw [ih]
        simp only [standaloneSpec, chunkedRecords, readRecords,
          List.filterMap_cons, hrec]
      | ok d =>
        have hrec : recordOf dec e = some ⟨d, e⟩ := by
          simp only [recordOf, hdec, hdm]
        by_cases h1 : d.totalChunks = 1
        · simp only [reassembleScan, hdec, hdm, if_pos h1]
          rw [ih]
          simp only [standaloneSpec, chunkedRecords, readRecords,
            List.filterMap_cons, hrec]
          rw [List.filter_cons_of_pos (by simp [h1]),
            List.filter_cons_of_neg (by simp [h1])]
          simp [List.append_assoc]
        · simp only [reassembleScan, hdec, hdm, if_neg h1]
          rw [ih]
          simp only [standaloneSpec, chunkedRecords, readRecords,
            List.filterMap_cons, hrec]
          rw [List.filter_cons_of_neg (by simp [h1]),
            List.filter_cons_of_pos (by simp [h1])]
          conv_rhs => rw [groupFold, List.foldl_cons]
          rfl

/-- The imperative read-path reassembly equals its declarative
description. -/
theorem reassemble_eq_spec (dec : MessageSentEvent → Option (List Nat))
    (events : List MessageSentEvent) :
    reassembleMessages dec events = reassembleSpec dec events := by
  rw [reassembleMessages]
  rw [reassembleScan_eq dec events [] []]
  have hfold : groupFold (chunkedRecords dec events) []
      = groupsSpec (chunkedRecords dec events) := by
    have := groupFold_canon (chunkedRecords dec events) []
    rw [show groupsSpec [] = [] from rfl] at this
    rw [this]
    rfl
  rw [reassembleSpec]
  rw [show ([] : List Message) ++ standaloneSpec dec events
    = standaloneSpec dec events from rfl]
  rw [hfold]

/-- A stable sort by chunk index is permutation-invariant when the chunk
indexes are pairwise distinct: stability never has to break a tie. -/
theorem jsSort_eq_of_perm_nodup (rs1 rs2 : List ChunkRecord)
    (hp : rs1.Perm rs2)
    (hnd : (rs2.map (fun r => r.decoded.chunkIndex)).Nodup) :
    jsSortByChunkIndex rs1 = jsSortByChunkIndex rs2 := by
  haveI hTot : IsTotal ChunkRecord
      (fun a b => a.decoded.chunkIndex ≤ b.decoded.chunkIndex) :=
    ⟨fun a b => Nat.le_total _ _⟩
  haveI hTrans : IsTrans ChunkRecord
      (fun a b => a.decoded.chunkIndex ≤ b.decoded.chunkIndex) :=
    ⟨fun a b c => Nat.le_trans⟩
  haveI hAnti : IsAntisymm ChunkRecord
      (fun a b => a.decoded.chunkIndex < b.decoded.chunkIndex) :=
    ⟨fun a b h1 h2 => absurd h1 (Nat.lt_asymm h2)⟩
  have hperm : (jsSortByChunkIndex rs1).Perm (jsSortByChunkIndex rs2) :=
    ((List.perm_insertionSort _ rs1).trans hp).trans
      (List.perm_insertionSort _ rs2).symm
  have hstrict : ∀ L : List ChunkRecord,
      List.Sorted (fun a b => a.decoded.chunkIndex ≤ b.decoded.chunkIndex)
        L →
      (L.map (fun r => r.decoded.chunkIndex)).Nodup →
      List.Sorted (fun a b => a.decoded.chunkIndex < b.decoded.chunkIndex)
        L := by
    intro L hle hndL
    have hle' : L.Pairwise
        (fun a b => a.decoded.chunkIndex ≤ b.decoded.chunkIndex) := hle
    have hnd' : (L.map (fun r => r.decoded.chunkIndex)).Pairwise
        (fun a b => a ≠ b) := hndL
    have hne : L.Pairwise
        (fun a b => a.decoded.chunkIndex ≠ b.decoded.chunkIndex) :=
      List.pairwise_map.mp hnd'
    exact (hle'.and hne).imp (fun h => Nat.lt_of_le_of_ne h.1 h.2)
  have hnd1 : ((jsSortByChunkIndex rs1).map
      (fun r => r.decoded.chunkIndex)).Nodup := by
    have hm : ((jsSortByChunkIndex rs1).map
        (fun r => r.decoded.chunkIndex)).Perm
        (rs2.map (fun r => r.decoded.chunkIndex)) :=
      ((List.perm_insertionSort _ rs1).trans hp).map _
    exact hm.nodup_iff.mpr hnd
  have hnd2 : ((jsSortByChunkIndex rs2).map
      (fun r => r.decoded.chunkIndex)).Nodup := by
    have hm : ((jsSortByChunkIndex rs2).map
        (fun r => r.decoded.chunkIndex)).Perm
        (rs2.map (fun r => r.decoded.chunkIndex)) :=
      (List.perm_insertionSort _ rs2).map _
    exact hm.nodup_iff.mpr hnd
  have hs1 := hstrict _ (List.sorted_insertionSort _ rs1) hnd1
  have hs2 := hstrict _ (List.sorted_insertionSort _ rs2) hnd2
  exact List.eq_of_perm_of_sorted hperm hs1 hs2

/-- `dedupFirst` of a nonempty constant list collapses to one key. -/
theorem dedupFirst_const (k : String) :
    ∀ xs : List String, xs ≠ [] → (∀ x ∈ xs, x = k) →
    dedupFirst xs = [k] := by
  intro xs
  cases xs with
  | nil => intro h; exact absurd rfl h
  | cons x rest =>
    intro _ hall
    have hx : x = k := hall x (List.mem_cons_self x rest)
    have hstep : dedupFirst (x :: rest)
        = x :: (dedupFirst rest).filter (fun y => !(y == x)) := rfl
    rw [hstep, hx]
    have hfil : (dedupFirst rest).filter (fun y => !(y == k)) = [] := by
      rw [List.filter_eq_nil_iff]
      intro a ha
      have ham : a ∈ rest := (dedupFirst_mem a rest).mp ha
      have hak : a = k := hall a (List.mem_cons_of_mem x ham)
      simp [hak]
    rw [hfil]

/-- Claim C4 (amended): in the read path, chunked frames (total_chunks ≠ 1)
are grouped by the hex-encoded message_id alone — not by the pair
(sender, message_id) — in a first-appearance-ordered map, the whole stage
being equal to the declarative `reassembleSpec`; a group is turned into a
delivered message exactly when the number of buffered records, duplicates
included, equals the total_chunks of its lowest-chunk_index record, the
text being the UTF-8 decoding of the payloads sorted stably by
chunk_index; the listen path buffers under the same hex message-id key
and delivers only when the buffered event count equals the total_chunks
recorded when the entry was created, the delivered message being the
reassembly of the buffered events. -/
theorem c4_chunk_grouping :
    (∀ (dec : MessageSentEvent → Option (List Nat)) events,
      reassembleMessages dec events = reassembleSpec dec events) ∧
    (∀ (rs : List ChunkRecord) r0 tl, jsSortByChunkIndex rs = r0 :: tl →
      ((assembleGroupMessage rs).isSome ↔
        rs.length = r0.decoded.totalChunks) ∧
      (∀ m, assembleGroupMessage rs = some m →
        m.text = textDecode ((r0 :: tl).flatMap (fun c => c.decoded.payload))
          ∧ m.sender = r0.event.sender)) ∧
    (∀ (dec : MessageSentEvent → Option (List Nat)) st e raw d,
      dec e = some raw → decodeMessage raw = .ok d → d.totalChunks ≠ 1 →
      (listenStep dec st e).2 ≠ [] →
      ∃ ent, bufGet (hexEncode d.messageId)
          (bufPush (hexEncode d.messageId) e d.totalChunks st) = some ent ∧
        ent.events.length = ent.totalChunks ∧
        ∃ m, (listenStep dec st e).2 = [m] ∧
          assembleChunks dec ent.events = .ok (some m)) := by
  refine ⟨reassemble_eq_spec, ?_, ?_⟩
  · intro rs r0 tl hsort
    have hlen : (r0 :: tl).length = rs.length := by
      rw [← hsort]
      exact (List.perm_insertionSort _ rs).length_eq
    constructor
    · simp only [assembleGroupMessage, hsort]
      by_cases hc : (r0 :: tl).length = r0.decoded.totalChunks
      · rw [if_pos hc]
        simp [← hlen, hc]
      · rw [if_neg hc, ← hlen]
        simpa using hc
    · intro m hm
      simp only [assembleGroupMessage, hsort] at hm
      by_cases hc : (r0 :: tl).length = r0.decoded.totalChunks
      · rw [if_pos hc] at hm
        cases hm
        exact ⟨rfl, rfl⟩
      · rw [if_neg hc] at hm
        cases hm
  · intro dec st e raw d hdec hdm hne hout
    simp only [listenStep, hdec, hdm, if_neg hne] at hout ⊢
    cases hget : bufGet (hexEncode d.messageId)
        (bufPush (hexEncode d.messageId) e d.totalChunks st) with
    | none => simp only [hget] at hout; simp at hout
    | some ent =>
      simp only [hget] at hout ⊢
      by_cases hcount : ent.events.length = ent.totalChunks
      · rw [if_pos hcount] at hout ⊢
        cases hasm : assembleChunks dec ent.events with
        | error u => simp only [hasm] at hout; simp at hout
        | ok om =>
          cases om with
          | none => simp only [hasm] at hout; simp at hout
          | some m =>
            simp only [hasm]
            exact ⟨ent, rfl, hcount, m, rfl, hasm⟩
      · rw [if_neg hcount] at hout
        simp at hout

/-! ### Concrete reassembly inputs -/

def mid1 : List Nat := [0, 0, 0, 0, 0, 0, 0, 1]

/-- Chunk 0 of 2 of message id `mid1`, payload hi. -/
def frameA : List Nat := [1, 0, 0, 0, 0, 0, 0, 0, 1, 0, 0, 0, 2, 104, 105]

/-- Chunk 1 of 2 of message id `mid1`, payload an exclamation mark. -/
def frameB : List Nat := [1, 0, 0, 0, 0, 0, 0, 0, 1, 0, 1, 0, 2, 33]

def sigA : String := "sigA"

def sigB : String := "sigB"

def senderA : String := "A"

def senderB : String := "B"

def recipC : String := "C"

/-- A decrypt oracle that returns each event's ciphertext unchanged: the
concrete events below carry their frame directly as ciphertext. -/
def dec0 : MessageSentEvent → Option (List Nat) := fun e => some e.ciphertext

def eA : MessageSentEvent := ⟨senderA, recipC, frameA, [], 5, some sigA⟩

def eB : MessageSentEvent := ⟨senderB, recipC, frameB, [], 6, some sigB⟩

theorem c4_chunk_grouping_witness :
    ∃ ent, bufGet (hexEncode mid1)
        (bufPush (hexEncode mid1) eB 2 (listenStep dec0 [] eA).1)
        = some ent ∧
      ent.events.length = ent.totalChunks ∧
      ∃ m, (listenStep dec0 (listenStep dec0 [] eA).1 eB).2 = [m] ∧
        assembleChunks dec0 ent.events = .ok (some m) := by
  exact c4_chunk_grouping.2.2 dec0 (listenStep dec0 [] eA).1 eB frameB
    ⟨1, mid1, 1, 2, [33]⟩ rfl rfl (by decide) (by decide)

/-- Claim C4 counterexample: two chunked events with the same message_id
but different senders are merged into a single delivered message (with the
first event's sender), where grouping by (sender, message_id) with a
distinct-chunk requirement would deliver nothing. -/
theorem c4_counterexample :
    reassembleMessages dec0 [eA, eB]
      = [⟨senderA, recipC, textDecode [104, 105, 33], 5, mid1,
          [sigA, sigB]⟩] ∧
    eA.sender ≠ eB.sender := by
  decide

/-- Claim C5 (amended): for a duplicate-free collection of chunk events
forming one logical chunked message — every decrypt-decode record is
non-standalone, all records share one hex message-id key, and the chunk
indexes are pairwise distinct — presenting the events to
`reassembleMessages` in any permutation yields the same result.  With a
duplicate chunk included, however, the record count exceeds total_chunks
and the read path delivers nothing (see the counterexample). -/
theorem c5_reassembly_permutation
    (dec : MessageSentEvent → Option (List Nat))
    (es es' : List MessageSentEvent)
    (hperm : es'.Perm es)
    (hchunk : ∀ r ∈ readRecords dec es, r.decoded.totalChunks ≠ 1)
    (hkey : ∀ r1 ∈ readRecords dec es, ∀ r2 ∈ readRecords dec es,
      recordKey r1 = recordKey r2)
    (hnodup : ((readRecords dec es).map
      (fun r => r.decoded.chunkIndex)).Nodup) :
    reassembleMessages dec es' = reassembleMessages dec es := by
  rw [reassemble_eq_spec, reassemble_eq_spec]
  have hrp : (readRecords dec es').Perm (readRecords dec es) :=
    hperm.filterMap (recordOf dec)
  have hmem : ∀ r, r ∈ readRecords dec es' ↔ r ∈ readRecords dec es :=
    fun r => hrp.mem_iff
  have hchunk' : ∀ r ∈ readRecords dec es', r.decoded.totalChunks ≠ 1 :=
    fun r hr => hchunk r ((hmem r).mp hr)
  have hs : ∀ L : List MessageSentEvent,
      (∀ r ∈ readRecords dec L, r.decoded.totalChunks ≠ 1) →
      standaloneSpec dec L = [] := by
    intro L hL
    have hfil : (readRecords dec L).filter
        (fun r => r.decoded.totalChunks == 1) = [] := by
      rw [List.filter_eq_nil_iff]
      intro a ha
      simp [hL a ha]
    rw [standaloneSpec, hfil, List.map_nil]
  have hcr : ∀ L : List MessageSentEvent,
      (∀ r ∈ readRecords dec L, r.decoded.totalChunks ≠ 1) →
      chunkedRecords dec L = readRecords dec L := by
    intro L hL
    rw [chunkedRecords, List.filter_eq_self]
    intro a ha
    simp [hL a ha]
  rw [reassembleSpec, reassembleSpec, hs es hchunk, hs es' hchunk',
    hcr es hchunk, hcr es' hchunk']
  by_cases hnil : readRecords dec es = []
  · have hnil' : readRecords dec es' = [] :=
      List.Perm.eq_nil (hnil ▸ hrp)
    rw [hnil, hnil']
  · obtain ⟨r1, rrest, he⟩ := List.exists_cons_of_ne_nil hnil
    have hmem1 : r1 ∈ readRecords dec es := by
      rw [he]; exact List.mem_cons_self r1 rrest
    have hkeys : ∀ r ∈ readRecords dec es, recordKey r = recordKey r1 :=
      fun r hr => hkey r hr r1 hmem1
    have hne' : readRecords dec es' ≠ [] := by
      intro hc
      exact hnil (List.Perm.eq_nil (hc ▸ hrp.symm))
    have hallk' : ∀ r ∈ readRecords dec es', recordKey r = recordKey r1 :=
      fun r hr => hkeys r ((hmem r).mp hr)
    have hgs : ∀ L : List ChunkRecord, L ≠ [] →
        (∀ r ∈ L, recordKey r = recordKey r1) →
        groupsSpec L = [(recordKey r1, L)] := by
      intro L hLne hallk
      have hdd : dedupFirst (L.map recordKey) = [recordKey r1] := by
        apply dedupFirst_const
        · simpa using hLne
        · intro x hx
          obtain ⟨r, hr, rfl⟩ := List.mem_map.mp hx
          exact hallk r hr
      rw [groupsSpec, hdd]
      simp only [List.map_cons, List.map_nil]
      have hfil : L.filter (fun r => recordKey r == recordKey r1) = L := by
        rw [List.filter_eq_self]
        intro a ha
        simp [hallk a ha]
      rw [hfil]
    rw [hgs (readRecords dec es) hnil hkeys,
      hgs (readRecords dec es') hne' hallk']
    have hsortEq : jsSortByChunkIndex (readRecords dec es')
        = jsSortByChunkIndex (readRecords dec es) :=
      jsSort_eq_of_perm_nodup _ _ hrp hnodup
    have hasm : assembleGroupMessage (readRecords dec es')
        = assembleGroupMessage (readRecords dec es) := by
      unfold assembleGroupMessage
      rw [hsortEq]
    simp only [List.filterMap_cons, List.filterMap_nil]
    rw [hasm]

def eB1 : MessageSentEvent := ⟨senderA, recipC, frameB, [], 6, some sigB⟩

theorem c5_reassembly_permutation_witness :
    reassembleMessages dec0 [eB, eA] = reassembleMessages dec0 [eA, eB] := by
  exact c5_reassembly_permutation dec0 [eA, eB] [eB, eA] (by decide)
    (by decide) (by decide) (by decide)

/-- Claim C5 counterexample: the two chunks of one message reassemble to
it, but presenting the same chunks with chunk 0 duplicated delivers
nothing — the group size (3, duplicates counted) no longer equals
total_chunks (2), so duplicates do change the result. -/
theorem c5_counterexample :
    reassembleMessages dec0 [eA, eB1]
      = [⟨senderA, recipC, textDecode [104, 105, 33], 5, mid1,
          [sigA, sigB]⟩] ∧
    reassembleMessages dec0 [eA, eA, eB1] = [] := by
  decide

end Messenger
